import Mathlib

/-!
Verification of the FibreField PWA icon generator
(`src/scripts/generate_icons.py`) against its natural-language
specification.

The Python module draws four icons (primary "fiber" icon plus three
shortcut icons) with PIL primitives and writes them as PNG files.  We
embed the module shallowly:

* every drawing call becomes a `DrawOp` value; an icon render is the
  list of draw operations in invocation order, kept symbolic enough
  (rational layout data, angles as rational multiples of π plus a
  rational offset) that the whole trace is computable;
* the PIL drawing/compositing semantics are not part of the repository
  (PIL is an external library), so the per-pixel meaning of a trace is
  modelled from the spec's Canvas contract ("over" alpha compositing,
  silent clipping);
* Python `int()` / `//` floors are modelled with `Int.floor` /
  `Int.fdiv`; `int()` truncates toward zero, which agrees with the
  floor at the nonnegative values arising here;
* the export pipeline's file writes are modelled by a caller-supplied
  success predicate on file names, since the PNG encoder and the file
  system are outside the repository.
-/

namespace FibreField

/-! ## Colors

The module's palette (`generate_icons.py` lines 19-24 etc.).  PIL
treats an RGB 3-tuple on an RGBA image as fully opaque, so 3-tuple
fills are embedded with alpha 255. -/

structure Color where
  r : ℚ
  g : ℚ
  b : ℚ
  a : ℚ
deriving DecidableEq

def whiteC : Color := ⟨255, 255, 255, 255⟩

def grayC : Color := ⟨107, 114, 128, 255⟩

def primaryBlue : Color := ⟨59, 130, 246, 255⟩

def secondaryBlue : Color := ⟨37, 99, 235, 255⟩

def lightBlue : Color := ⟨147, 197, 253, 255⟩

/-- `(*primary_blue, alpha)` — the glow color with an explicit alpha. -/
def primaryBlueA (al : ℚ) : Color := ⟨59, 130, 246, al⟩

/-- `(*light_blue, alpha)` — fiber-strand color with an explicit alpha. -/
def lightBlueA (al : ℚ) : Color := ⟨147, 197, 253, al⟩

/-! ## Symbolic real coordinates

Coordinates produced by the Python code are sums of a rational base and
terms `k * cos(angle)` / `k * sin(angle)` where every angle has the
form `piCo * π + off` with rational `piCo`, `off` (degrees are
converted by `radians`, and the arrowhead code adds the plain radian
offset `0.5`).  Keeping this structure makes every trace computable
while its real value is available through `val`. -/

structure Angle where
  piCo : ℚ
  off : ℚ
deriving DecidableEq

noncomputable def Angle.val (a : Angle) : ℝ := a.piCo * Real.pi + a.off

/-- `math.radians d` for a rational degree value. -/
def degAngle (d : ℚ) : Angle := ⟨d / 180, 0⟩

inductive Trig where
  | cos : Trig
  | sin : Trig
deriving DecidableEq

structure PTerm where
  k : ℚ
  f : Trig
  ang : Angle
deriving DecidableEq

noncomputable def PTerm.val (t : PTerm) : ℝ :=
  t.k * (match t.f with
         | .cos => Real.cos t.ang.val
         | .sin => Real.sin t.ang.val)

structure Coord where
  base : ℚ
  ts : List PTerm
deriving DecidableEq

noncomputable def Coord.val (c : Coord) : ℝ :=
  (c.base : ℝ) + (c.ts.map PTerm.val).sum

def Coord.const (q : ℚ) : Coord := ⟨q, []⟩

/-- A point of the plane, both coordinates symbolic. -/
structure P where
  x : Coord
  y : Coord
deriving DecidableEq

noncomputable def P.val (p : P) : ℝ × ℝ := (p.x.val, p.y.val)

def P.const (qx qy : ℚ) : P := ⟨Coord.const qx, Coord.const qy⟩

/-- `(cx + r*cos a, cy + r*sin a)`, the ubiquitous polar construction. -/
def polarP (cx cy r : ℚ) (a : Angle) : P :=
  ⟨⟨cx, [⟨r, .cos, a⟩]⟩, ⟨cy, [⟨r, .sin, a⟩]⟩⟩

/-- Add a second polar term to a point (used for arrowhead vertices,
e.g. `end_x - head_size*cos(angle_rad + 0.5)`). -/
def P.addPolar (p : P) (k : ℚ) (a : Angle) : P :=
  ⟨⟨p.x.base, p.x.ts ++ [⟨k, .cos, a⟩]⟩, ⟨p.y.base, p.y.ts ++ [⟨k, .sin, a⟩]⟩⟩

/-! ## Python integer helpers -/

/-- Python `int(q)` for the nonnegative values used in this module.
`int()` truncates toward zero; every argument it receives in
`generate_icons.py` is nonnegative, where truncation and floor
agree, so we use the floor (which has the richer API). -/
def pyInt (q : ℚ) : ℤ := ⌊q⌋

/-- Python's `//` on integers (floor division). -/
def pyDiv (a b : ℤ) : ℤ := Int.fdiv a b

/-! ## Draw operations

A `DrawOp` records one PIL drawing call.  A PIL `ellipse`/`rectangle`
call carrying both `fill` and `outline` is embedded as the fill
operation followed by the stroke operation, matching PIL's drawing
order and the spec's separate `fill…`/`stroke…` Canvas primitives.
All ellipses drawn by the module are circles, so a center and radius
suffice. -/

inductive DrawOp where
  | fillCircle (c : P) (rad : ℚ) (col : Color)
  | strokeCircle (c : P) (rad : ℚ) (col : Color) (w : ℚ)
  | line (p q : P) (col : Color) (w : ℚ)
  | fillTriangle (v₁ v₂ v₃ : P) (col : Color)
  | fillRect (x0 y0 x1 y1 : ℚ) (col : Color)
  | strokeRect (x0 y0 x1 y1 : ℚ) (col : Color) (w : ℚ)
  | fillRoundedRect (x0 y0 x1 y1 rad : ℚ) (col : Color)
  | strokeRoundedRect (x0 y0 x1 y1 rad : ℚ) (col : Color) (w : ℚ)
  | label (txt : String) (x y w h : ℚ) (col : Color)
deriving DecidableEq

def DrawOp.color : DrawOp → Color
  | .fillCircle _ _ col => col
  | .strokeCircle _ _ col _ => col
  | .line _ _ col _ => col
  | .fillTriangle _ _ _ col => col
  | .fillRect _ _ _ _ col => col
  | .strokeRect _ _ _ _ col _ => col
  | .fillRoundedRect _ _ _ _ _ col => col
  | .strokeRoundedRect _ _ _ _ _ col _ => col
  | .label _ _ _ _ _ col => col

/-! ## Canvas semantics

Modelled from the spec: the Canvas component is realized by PIL, which
is outside this repository, so pixel coverage of each primitive and the
"over" compositing rule are taken from the spec's Canvas contract
(§4.1): filled shapes cover the pixels inside them, a line of width `w`
covers the pixels within `w/2` of the segment, a stroke covers a band
of the given width around the shape's boundary, and drawing composites
`src` over `dst` per channel with `out = src·α + dst·(1−α)`,
`outα = srcα + dstα·(1−srcα)` (alphas scaled to `0…255`). -/

def inRect (x0 y0 x1 y1 : ℚ) (p : ℝ × ℝ) : Prop :=
  (x0 : ℝ) ≤ p.1 ∧ p.1 ≤ (x1 : ℝ) ∧ (y0 : ℝ) ≤ p.2 ∧ p.2 ≤ (y1 : ℝ)

/-- Pixel `p` lies within distance `w/2` of the segment from `a` to `b`. -/
def inSeg (a b : P) (w : ℚ) (p : ℝ × ℝ) : Prop :=
  ∃ t : ℝ, 0 ≤ t ∧ t ≤ 1 ∧
    (p.1 - ((1 - t) * a.x.val + t * b.x.val)) ^ 2 +
      (p.2 - ((1 - t) * a.y.val + t * b.y.val)) ^ 2 ≤ ((w : ℝ) / 2) ^ 2

/-- Pixel `p` lies in the (convex hull of the) triangle `v₁ v₂ v₃`. -/
def inTri (v₁ v₂ v₃ : P) (p : ℝ × ℝ) : Prop :=
  ∃ l₁ l₂ l₃ : ℝ, 0 ≤ l₁ ∧ 0 ≤ l₂ ∧ 0 ≤ l₃ ∧ l₁ + l₂ + l₃ = 1 ∧
    p.1 = l₁ * v₁.x.val + l₂ * v₂.x.val + l₃ * v₃.x.val ∧
    p.2 = l₁ * v₁.y.val + l₂ * v₂.y.val + l₃ * v₃.y.val

/-- A rectangle with quarter-circle corners of radius `rad`:
inside the rectangle and either in one of the two central bands or in
one of the four corner disks. -/
def inRoundedRect (x0 y0 x1 y1 rad : ℚ) (p : ℝ × ℝ) : Prop :=
  inRect x0 y0 x1 y1 p ∧
    (((x0 : ℝ) + rad ≤ p.1 ∧ p.1 ≤ (x1 : ℝ) - rad) ∨
     ((y0 : ℝ) + rad ≤ p.2 ∧ p.2 ≤ (y1 : ℝ) - rad) ∨
     (p.1 - ((x0 : ℝ) + rad)) ^ 2 + (p.2 - ((y0 : ℝ) + rad)) ^ 2 ≤ (rad : ℝ) ^ 2 ∨
     (p.1 - ((x1 : ℝ) - rad)) ^ 2 + (p.2 - ((y0 : ℝ) + rad)) ^ 2 ≤ (rad : ℝ) ^ 2 ∨
     (p.1 - ((x0 : ℝ) + rad)) ^ 2 + (p.2 - ((y1 : ℝ) - rad)) ^ 2 ≤ (rad : ℝ) ^ 2 ∨
     (p.1 - ((x1 : ℝ) - rad)) ^ 2 + (p.2 - ((y1 : ℝ) - rad)) ^ 2 ≤ (rad : ℝ) ^ 2)

/-- Modelled from the spec: which pixels a drawing operation touches.
Strokes cover a band of the stroke width around the boundary; the
glyph operation covers (at most) the measured text box. -/
def covers : DrawOp → (ℝ × ℝ) → Prop
  | .fillCircle c rad _, p =>
      (p.1 - c.x.val) ^ 2 + (p.2 - c.y.val) ^ 2 ≤ (rad : ℝ) ^ 2
  | .strokeCircle c rad _ w, p =>
      ((rad : ℝ) - w) ^ 2 ≤ (p.1 - c.x.val) ^ 2 + (p.2 - c.y.val) ^ 2 ∧
        (p.1 - c.x.val) ^ 2 + (p.2 - c.y.val) ^ 2 ≤ ((rad : ℝ) + w) ^ 2
  | .line a b _ w, p => inSeg a b w p
  | .fillTriangle v₁ v₂ v₃ _, p => inTri v₁ v₂ v₃ p
  | .fillRect x0 y0 x1 y1 _, p => inRect x0 y0 x1 y1 p
  | .strokeRect x0 y0 x1 y1 _ w, p =>
      inRect (x0 - w) (y0 - w) (x1 + w) (y1 + w) p ∧
        ¬ inRect (x0 + w) (y0 + w) (x1 - w) (y1 - w) p
  | .fillRoundedRect x0 y0 x1 y1 rad _, p => inRoundedRect x0 y0 x1 y1 rad p
  | .strokeRoundedRect x0 y0 x1 y1 _ _ w, p =>
      inRect (x0 - w) (y0 - w) (x1 + w) (y1 + w) p ∧
        ¬ inRect (x0 + w) (y0 + w) (x1 - w) (y1 - w) p
  | .label _ x y w h _, p => inRect x y (x + w) (y + h) p

/-- Modelled from the spec: "over" alpha compositing of `src` on `dst`,
channels and alphas on the `0…255` scale. -/
def overC (dst src : Color) : Color :=
  ⟨src.r * (src.a / 255) + dst.r * (1 - src.a / 255),
   src.g * (src.a / 255) + dst.g * (1 - src.a / 255),
   src.b * (src.a / 255) + dst.b * (1 - src.a / 255),
   src.a + dst.a * (1 - src.a / 255)⟩

/-- The transparent black every canvas starts from. -/
def clearC : Color := ⟨0, 0, 0, 0⟩

/-- Modelled from the spec: the color of pixel `p` after running a list
of draw operations from state `c₀`: an operation covering `p`
composites its color over the pixel, any other operation leaves the
pixel unchanged. -/
inductive ColorRun (p : ℝ × ℝ) : Color → List DrawOp → Color → Prop where
  | nil (c : Color) : ColorRun p c [] c
  | cov {c d : Color} {op : DrawOp} {ops : List DrawOp} :
      covers op p → ColorRun p (overC c op.color) ops d →
      ColorRun p c (op :: ops) d
  | ncov {c d : Color} {op : DrawOp} {ops : List DrawOp} :
      ¬ covers op p → ColorRun p c ops d → ColorRun p c (op :: ops) d

/-- The final alpha of pixel `p` after drawing `ops` on a fresh canvas. -/
def FinalAlpha (ops : List DrawOp) (p : ℝ × ℝ) (a : ℚ) : Prop :=
  ∃ c : Color, ColorRun p clearC ops c ∧ c.a = a

/-! ## Geometry utilities

`np.linspace` and the spiral / arc samplers, generalized exactly as the
spec's Geometry Utilities name them; the composers below instantiate
them the way the Python loops do.  Float multiplications by the
literals `0.1, 0.15, …, 2.5` are modelled by the exact rationals they
denote.  At every layout value this module feeds to `int()` the float
result and the exact rational have the same floor; a handful of
interior glow-loop alphas (e.g. `i = 49` at `radius = 51`) land one
below the exact floor in floats — no property below depends on those
alpha values (the first glow iteration, the one the spec singles out,
is exactly `0` in both arithmetics). -/

/-- `np.linspace(0, 1, n)`. -/
def linspace (n : ℕ) : List ℚ :=
  if n ≤ 1 then (List.range n).map (fun _ : ℕ => (0 : ℚ))
  else (List.range n).map (fun i : ℕ => (i : ℚ) / ((n : ℚ) - 1))

/-- `spiralPoints(center, startAngle, innerRadius, outerRadius, turns, n)`:
for `t` over `linspace(0,1,n)`, the point at angle
`startAngle + t·turns·2π` and radius `innerRadius + t·(outerRadius − innerRadius)`
about `(cx, cy)`.  The fiber-strand loop of `create_fiber_icon`
(lines 55-63) is the instance `turns = 3/4`,
`innerRadius = 0.3·inner_radius`, `outerRadius = 0.7·inner_radius`. -/
def spiralPoints (cx cy : ℚ) (a0 : Angle) (rIn rOut turns : ℚ) (n : ℕ) : List P :=
  (linspace n).map fun t =>
    polarP cx cy (rIn + t * (rOut - rIn)) ⟨a0.piCo + t * (2 * turns), a0.off⟩

/-- The angle samples of `range(start, stop, 5)` (degrees, 5° step),
as in both arc loops of `create_sync_icon`. -/
def arcAngles (start stop : ℤ) : List ℤ :=
  (List.range (((stop - start) / 5).toNat)).map (fun k : ℕ => start + 5 * (k : ℤ))

/-- The wrap-past-360° normalization of the inner arc loop
(`angle_norm = angle - 360 if angle >= 360 else angle`). -/
def normAngle (a : ℤ) : ℤ := if 360 ≤ a then a - 360 else a

/-- `arcPoints(center, radius, startDegrees, endDegrees)` with the 5°
design step: one point per sampled angle, angles ≥ 360° normalized. -/
def arcPointsDeg (cx cy r : ℚ) (start stop : ℤ) : List P :=
  (arcAngles start stop).map (fun a => polarP cx cy r (degAngle ((normAngle a : ℤ) : ℚ)))

/-- Successive-point line segments (`draw.line([points[i], points[i+1]], …)`
for `i` in order), with the color allowed to depend on the segment
index (the fiber strands fade per segment). -/
def segList (col : ℕ → Color) (w : ℚ) : List P → ℕ → List DrawOp
  | a :: b :: rest, i => .line a b (col i) w :: segList col w (b :: rest) (i + 1)
  | _, _ => []

/-! ## PrimaryIcon (`create_fiber_icon`, lines 12-124) -/

/-- `center = size // 2`. -/
def pcenter (s : ℕ) : ℤ := pyDiv (s : ℤ) 2

/-- `radius = int(size // 2.5)`. -/
def pradius (s : ℕ) : ℤ := pyInt ((2 * (s : ℚ)) / 5)

/-- `alpha = int(255 * (1 - i / radius) * 0.1)` in the glow loop. -/
def glowAlpha (r i : ℤ) : ℚ := (pyInt ((255 : ℚ) * (1 - (i : ℚ) / (r : ℚ)) * (1 / 10)) : ℤ)

/-- The radial-glow loop `for i in range(radius, 0, -1)`: concentric
filled circles of radius `i = radius, radius-1, …, 1`. -/
def glowOps (s : ℕ) : List DrawOp :=
  (List.range (pradius s).toNat).map fun j : ℕ =>
    .fillCircle (P.const (pcenter s : ℚ) (pcenter s : ℚ)) ((pradius s - (j : ℤ) : ℤ) : ℚ)
      (primaryBlueA (glowAlpha (pradius s) (pradius s - (j : ℤ))))

/-- `inner_radius = int(radius * 0.85)`. -/
def pinner (s : ℕ) : ℤ := pyInt ((pradius s : ℚ) * (17 / 20))

/-- `cable_width = max(2, size // 40)`. -/
def cable_width (s : ℕ) : ℤ := max 2 (pyDiv (s : ℤ) 40)

/-- `alpha = int(255 * (1 - i / len(points)) * 0.8)` in the strand loop
(`len(points) = 20`). -/
def strandAlpha (i : ℕ) : ℚ := (pyInt ((255 : ℚ) * (1 - (i : ℚ) / 20) * (4 / 5)) : ℤ)

/-- One fiber strand's 20 sample points (the spiral loop at a given
`angle_offset` in degrees). -/
def strandPts (s : ℕ) (offset : ℚ) : List P :=
  spiralPoints (pcenter s : ℚ) (pcenter s : ℚ) (degAngle offset)
    ((3 / 10) * (pinner s : ℚ)) ((7 / 10) * (pinner s : ℚ)) (3 / 4) 20

/-- The per-segment fading lines of one strand. -/
def strandOps (s : ℕ) (offset : ℚ) : List DrawOp :=
  segList (fun i => lightBlueA (strandAlpha i)) ((cable_width s : ℤ) : ℚ) (strandPts s offset) 0

def strandOffsets : List ℚ := [0, 60, 120, 180, 240, 300]

/-- `node_radius = int(radius * 0.2)`. -/
def node_radius (s : ℕ) : ℤ := pyInt ((pradius s : ℚ) * (1 / 5))

/-- `point_radius = int(radius * 0.65)`. -/
def point_radius (s : ℕ) : ℤ := pyInt ((pradius s : ℚ) * (13 / 20))

/-- `point_size = int(radius * 0.08)`. -/
def point_size (s : ℕ) : ℤ := pyInt ((pradius s : ℚ) * (2 / 25))

def dotAngles : List ℚ := [0, 45, 90, 135, 180, 225, 270, 315]

/-- The eight connector dots (fill + outline each). -/
def dotOps (s : ℕ) : List DrawOp :=
  (dotAngles.map fun a =>
    [DrawOp.fillCircle (polarP (pcenter s : ℚ) (pcenter s : ℚ) (point_radius s : ℚ) (degAngle a))
        (point_size s : ℚ) lightBlue,
     DrawOp.strokeCircle (polarP (pcenter s : ℚ) (pcenter s : ℚ) (point_radius s : ℚ) (degAngle a))
        (point_size s : ℚ) whiteC ((max 1 (pyDiv (s : ℤ) 80) : ℤ) : ℚ)]).flatten

/-- `font_size = max(12, size // 8)` (computed by the label branch; the
default bitmap font ignores it). -/
def font_size (s : ℕ) : ℤ := max 12 (pyDiv (s : ℤ) 8)

/-- The two `draw.text` calls of the label branch: shadow then white
text, centered via the measured text box `tw × th` (the box is a
property of the external default font, so it is a parameter). -/
def labelOps (s : ℕ) (tw th : ℤ) : List DrawOp :=
  [.label "FF" ((pcenter s - pyDiv tw 2 + 1 : ℤ) : ℚ) ((pcenter s - pyDiv th 2 + 1 : ℤ) : ℚ)
      (tw : ℚ) (th : ℚ) grayC,
   .label "FF" ((pcenter s - pyDiv tw 2 : ℤ) : ℚ) ((pcenter s - pyDiv th 2 : ℤ) : ℚ)
      (tw : ℚ) (th : ℚ) whiteC]

/-- `line_length = int(radius * 0.3)` of the cross fallback. -/
def line_length (s : ℕ) : ℤ := pyInt ((pradius s : ℚ) * (3 / 10))

/-- The fallback cross drawn when label rendering raised. -/
def crossOps (s : ℕ) : List DrawOp :=
  [.line (P.const ((pcenter s - line_length s : ℤ) : ℚ) (pcenter s : ℚ))
      (P.const ((pcenter s + line_length s : ℤ) : ℚ) (pcenter s : ℚ))
      whiteC ((max 2 (pyDiv (s : ℤ) 30) : ℤ) : ℚ),
   .line (P.const (pcenter s : ℚ) ((pcenter s - line_length s : ℤ) : ℚ))
      (P.const (pcenter s : ℚ) ((pcenter s + line_length s : ℤ) : ℚ))
      whiteC ((max 2 (pyDiv (s : ℤ) 30) : ℤ) : ℚ)]

/-- The full draw trace of `create_fiber_icon(size)`.  `fontOk` records
whether `ImageFont`/`draw.text` succeeded (the `try`/`except` of lines
96-122); `tw`/`th` are the measured text-box extents. -/
def create_fiber_trace (s : ℕ) (fontOk : Bool) (tw th : ℤ) : List DrawOp :=
  glowOps s ++
  [.fillCircle (P.const (pcenter s : ℚ) (pcenter s : ℚ)) (pradius s : ℚ) primaryBlue,
   .fillCircle (P.const (pcenter s : ℚ) (pcenter s : ℚ)) (pinner s : ℚ) secondaryBlue] ++
  (strandOffsets.map (strandOps s)).flatten ++
  [.fillCircle (P.const (pcenter s : ℚ) (pcenter s : ℚ)) (node_radius s : ℚ) whiteC,
   .strokeCircle (P.const (pcenter s : ℚ) (pcenter s : ℚ)) (node_radius s : ℚ) secondaryBlue
     ((max 1 (pyDiv (s : ℤ) 60) : ℤ) : ℚ)] ++
  dotOps s ++
  (if 128 ≤ s then (if fontOk then labelOps s tw th else crossOps s) else [])

/-- A rendered icon: a `size × size` RGBA canvas plus its draw trace. -/
structure Canvas where
  w : ℕ
  h : ℕ
  ops : List DrawOp

def create_fiber_icon (s : ℕ) (fontOk : Bool) (tw th : ℤ) : Canvas :=
  ⟨s, s, create_fiber_trace s fontOk tw th⟩

/-! ## CaptureIcon (`create_capture_icon`, lines 126-170) -/

def camera_width (s : ℕ) : ℤ := pyInt ((s : ℚ) * (7 / 10))

def camera_height (s : ℕ) : ℤ := pyInt ((s : ℚ) * (1 / 2))

def camera_x (s : ℕ) : ℤ := pcenter s - pyDiv (camera_width s) 2

def camera_y (s : ℕ) : ℤ := pcenter s - pyDiv (camera_height s) 2

def lens_radius (s : ℕ) : ℤ := pyInt ((s : ℚ) * (3 / 20))

def inner_lens (s : ℕ) : ℤ := pyInt ((lens_radius s : ℚ) * (3 / 5))

def vf_width (s : ℕ) : ℤ := pyInt ((s : ℚ) * (1 / 5))

def vf_height (s : ℕ) : ℤ := pyInt ((s : ℚ) * (1 / 10))

def vf_x (s : ℕ) : ℤ := pcenter s - pyDiv (vf_width s) 2

def vf_y (s : ℕ) : ℤ := camera_y s - vf_height s - pyInt ((s : ℚ) * (1 / 20))

def create_capture_trace (s : ℕ) : List DrawOp :=
  [.fillRoundedRect (camera_x s : ℚ) (camera_y s : ℚ)
      ((camera_x s + camera_width s : ℤ) : ℚ) ((camera_y s + camera_height s : ℤ) : ℚ)
      ((pyDiv (s : ℤ) 20 : ℤ) : ℚ) primaryBlue,
   .strokeRoundedRect (camera_x s : ℚ) (camera_y s : ℚ)
      ((camera_x s + camera_width s : ℤ) : ℚ) ((camera_y s + camera_height s : ℤ) : ℚ)
      ((pyDiv (s : ℤ) 20 : ℤ) : ℚ) whiteC 2,
   .fillCircle (P.const (pcenter s : ℚ) (pcenter s : ℚ)) (lens_radius s : ℚ) grayC,
   .strokeCircle (P.const (pcenter s : ℚ) (pcenter s : ℚ)) (lens_radius s : ℚ) whiteC 2,
   .fillCircle (P.const (pcenter s : ℚ) (pcenter s : ℚ)) (inner_lens s : ℚ) whiteC,
   .fillRoundedRect (vf_x s : ℚ) (vf_y s : ℚ)
      ((vf_x s + vf_width s : ℤ) : ℚ) ((vf_y s + vf_height s : ℤ) : ℚ)
      ((pyDiv (s : ℤ) 40 : ℤ) : ℚ) primaryBlue,
   .strokeRoundedRect (vf_x s : ℚ) (vf_y s : ℚ)
      ((vf_x s + vf_width s : ℤ) : ℚ) ((vf_y s + vf_height s : ℤ) : ℚ)
      ((pyDiv (s : ℤ) 40 : ℤ) : ℚ) whiteC 1]

def create_capture_icon (s : ℕ) : Canvas := ⟨s, s, create_capture_trace s⟩

/-! ## AssignmentsIcon (`create_assignments_icon`, lines 172-227) -/

def doc_width (s : ℕ) : ℤ := pyInt ((s : ℚ) * (3 / 5))

def doc_height (s : ℕ) : ℤ := pyInt ((s : ℚ) * (4 / 5))

def doc_x (s : ℕ) : ℤ := pcenter s - pyDiv (doc_width s) 2

def doc_y (s : ℕ) : ℤ := pcenter s - pyDiv (doc_height s) 2

def item_height (s : ℕ) : ℤ := pyDiv (doc_height s) 6

def item_margin (s : ℕ) : ℤ := pyDiv (s : ℤ) 30

def checkbox_size (s : ℕ) : ℤ := pyDiv (s : ℤ) 20

def item_y (s : ℕ) (i : ℕ) : ℤ :=
  doc_y s + item_margin s + i * (item_height s + item_margin s)

def checkbox_x (s : ℕ) : ℤ := doc_x s + item_margin s

def checkbox_y (s : ℕ) (i : ℕ) : ℤ :=
  item_y s i + pyDiv (item_height s - checkbox_size s) 2

/-- One list row: checkbox (fill + outline), the checkmark's two line
segments for the first two rows, then the filled text-line bar. -/
def rowOps (s : ℕ) (i : ℕ) : List DrawOp :=
  [.fillRect (checkbox_x s : ℚ) (checkbox_y s i : ℚ)
      ((checkbox_x s + checkbox_size s : ℤ) : ℚ) ((checkbox_y s i + checkbox_size s : ℤ) : ℚ)
      (if i < 2 then lightBlue else whiteC),
   .strokeRect (checkbox_x s : ℚ) (checkbox_y s i : ℚ)
      ((checkbox_x s + checkbox_size s : ℤ) : ℚ) ((checkbox_y s i + checkbox_size s : ℤ) : ℚ)
      primaryBlue 1] ++
  (if i < 2 then
    [DrawOp.line
      (P.const ((checkbox_x s : ℚ) + (checkbox_size s : ℚ) * (1 / 5))
               ((checkbox_y s i : ℚ) + (checkbox_size s : ℚ) * (1 / 2)))
      (P.const ((checkbox_x s : ℚ) + (checkbox_size s : ℚ) * (1 / 2))
               ((checkbox_y s i : ℚ) + (checkbox_size s : ℚ) * (4 / 5)))
      primaryBlue ((max 1 (pyDiv (s : ℤ) 60) : ℤ) : ℚ),
     DrawOp.line
      (P.const ((checkbox_x s : ℚ) + (checkbox_size s : ℚ) * (1 / 2))
               ((checkbox_y s i : ℚ) + (checkbox_size s : ℚ) * (4 / 5)))
      (P.const ((checkbox_x s : ℚ) + (checkbox_size s : ℚ) * (4 / 5))
               ((checkbox_y s i : ℚ) + (checkbox_size s : ℚ) * (3 / 10)))
      primaryBlue ((max 1 (pyDiv (s : ℤ) 60) : ℤ) : ℚ)]
   else []) ++
  [.fillRect ((checkbox_x s + checkbox_size s + item_margin s : ℤ) : ℚ)
      ((item_y s i + pyDiv (item_height s) 2 - 1 : ℤ) : ℚ)
      ((checkbox_x s + checkbox_size s + item_margin s +
          (doc_width s - checkbox_size s - 3 * item_margin s) : ℤ) : ℚ)
      ((item_y s i + pyDiv (item_height s) 2 + 1 : ℤ) : ℚ)
      primaryBlue]

def create_assignments_trace (s : ℕ) : List DrawOp :=
  [.fillRoundedRect (doc_x s : ℚ) (doc_y s : ℚ)
      ((doc_x s + doc_width s : ℤ) : ℚ) ((doc_y s + doc_height s : ℤ) : ℚ)
      ((pyDiv (s : ℤ) 20 : ℤ) : ℚ) whiteC,
   .strokeRoundedRect (doc_x s : ℚ) (doc_y s : ℚ)
      ((doc_x s + doc_width s : ℤ) : ℚ) ((doc_y s + doc_height s : ℤ) : ℚ)
      ((pyDiv (s : ℤ) 20 : ℤ) : ℚ) primaryBlue 2] ++
  ((List.range 4).map (rowOps s)).flatten

def create_assignments_icon (s : ℕ) : Canvas := ⟨s, s, create_assignments_trace s⟩

/-! ## SyncIcon (`create_sync_icon`, lines 229-307) -/

def sradius (s : ℕ) : ℤ := pyInt ((s : ℚ) * (3 / 10))

def arrow_width (s : ℕ) : ℤ := max 3 (pyDiv (s : ℤ) 20)

def head_size (s : ℕ) : ℤ := pyDiv (s : ℤ) 15

def sinner (s : ℕ) : ℤ := pyInt ((sradius s : ℚ) * (3 / 5))

/-- `points_top`: the outer arc's samples, `range(45, 315, 5)`. -/
def syncOuterPts (s : ℕ) : List P :=
  arcPointsDeg (pcenter s : ℚ) (pcenter s : ℚ) (sradius s : ℚ) 45 315

def syncOuterSegs (s : ℕ) : List DrawOp :=
  segList (fun _ => primaryBlue) ((arrow_width s : ℤ) : ℚ) (syncOuterPts s) 0

/-- The outer arrowhead's apex, `points_top[-1]` (the sample at 310°). -/
def syncOuterApex (s : ℕ) : P :=
  polarP (pcenter s : ℚ) (pcenter s : ℚ) (sradius s : ℚ) (degAngle 310)

/-- The outer arrowhead: apex at the arc's last point, base vertices
offset by `-head_size` at `radians(end_angle) ± 0.5`
(`end_angle = 315`). -/
def syncOuterHead (s : ℕ) : DrawOp :=
  .fillTriangle (syncOuterApex s)
    ((syncOuterApex s).addPolar (-(head_size s : ℚ)) ⟨315 / 180, 1 / 2⟩)
    ((syncOuterApex s).addPolar (-(head_size s : ℚ)) ⟨315 / 180, -(1 / 2)⟩)
    primaryBlue

/-- `points_bottom`: the inner arc's samples, `range(225, 585, 5)` with
angles ≥ 360° normalized by subtracting 360°. -/
def syncInnerPts (s : ℕ) : List P :=
  arcPointsDeg (pcenter s : ℚ) (pcenter s : ℚ) (sinner s : ℚ) 225 585

def syncInnerSegs (s : ℕ) : List DrawOp :=
  segList (fun _ => lightBlue) ((arrow_width s : ℤ) : ℚ) (syncInnerPts s) 0

/-- The inner arrowhead's apex, `points_bottom[0]` (the sample at 225°). -/
def syncInnerApex (s : ℕ) : P :=
  polarP (pcenter s : ℚ) (pcenter s : ℚ) (sinner s : ℚ) (degAngle 225)

/-- The inner arrowhead: apex at the arc's first point, base vertices
offset by `+head_size` at `radians(225) ± 0.5`. -/
def syncInnerHead (s : ℕ) : DrawOp :=
  .fillTriangle (syncInnerApex s)
    ((syncInnerApex s).addPolar (head_size s : ℚ) ⟨225 / 180, 1 / 2⟩)
    ((syncInnerApex s).addPolar (head_size s : ℚ) ⟨225 / 180, -(1 / 2)⟩)
    lightBlue

def create_sync_trace (s : ℕ) : List DrawOp :=
  syncOuterSegs s ++ [syncOuterHead s] ++ syncInnerSegs s ++ [syncInnerHead s]

def create_sync_icon (s : ℕ) : Canvas := ⟨s, s, create_sync_trace s⟩

/-! ## Export pipeline (`generate_all_icons`, lines 309-341) -/

inductive IconError where
  | invalidSize : IconError
  | ioError : IconError
deriving DecidableEq

def sizeMatrix : List ℕ := [72, 96, 128, 144, 152, 192, 384, 512]

def iconFileName (s : ℕ) : String :=
  "icon-" ++ toString s ++ "x" ++ toString s ++ ".png"

/-- The renders and target file names of the batch, in the source's
order: the eight primary icons then the three fixed-size shortcuts. -/
def iconJobs (fontOk : Bool) (tw th : ℤ) : List (String × Canvas) :=
  sizeMatrix.map (fun s => (iconFileName s, create_fiber_icon s fontOk tw th)) ++
  [("shortcut-capture.png", create_capture_icon 96),
   ("shortcut-assignments.png", create_assignments_icon 96),
   ("shortcut-sync.png", create_sync_icon 96)]

/-- Runs the batch in order.  Each `icon.save(…)` either succeeds
(`ok name = true`, modelled from the spec's save boundary: the encoder
and file system are outside the repository) or raises `IOError`.
`generate_all_icons` wraps no `try`/`except` around the loop, so a
raise aborts the whole batch: no later job runs, and the partial list
of written files is lost to the caller.  The result is the list of
`(name, width, height)` records actually written, plus the escaped
exception if any. -/
def runBatch (ok : String → Bool) :
    List (String × Canvas) → List (String × ℕ × ℕ) × Option IconError
  | [] => ([], none)
  | (n, cv) :: rest =>
      if ok n then
        ((n, cv.w, cv.h) :: (runBatch ok rest).1, (runBatch ok rest).2)
      else ([], some .ioError)

/-- `generate_all_icons()` with the save boundary made explicit. -/
def generate_all_icons (fontOk : Bool) (tw th : ℤ) (ok : String → Bool) :
    List (String × ℕ × ℕ) × Option IconError :=
  runBatch ok (iconJobs fontOk tw th)

/-- The file names the batch attempts, in order. -/
def iconNames : List String :=
  sizeMatrix.map iconFileName ++
  ["shortcut-capture.png", "shortcut-assignments.png", "shortcut-sync.png"]

/-! ## Bounding boxes

Conservative rational bounding boxes for draw operations: every pixel
an operation can touch lies in its box (each `k·cos/sin` term of a
coordinate contributes at most `|k|`).  Used to show the canvas
corners are never drawn on. -/

def Coord.spread (c : Coord) : ℚ := (c.ts.map (fun t => |t.k|)).sum

def Coord.lo (c : Coord) : ℚ := c.base - c.spread

def Coord.hi (c : Coord) : ℚ := c.base + c.spread

structure QBox where
  x0 : ℚ
  x1 : ℚ
  y0 : ℚ
  y1 : ℚ
deriving DecidableEq

def P.box (p : P) : QBox := ⟨p.x.lo, p.x.hi, p.y.lo, p.y.hi⟩

def QBox.union (a b : QBox) : QBox :=
  ⟨min a.x0 b.x0, max a.x1 b.x1, min a.y0 b.y0, max a.y1 b.y1⟩

def QBox.grow (b : QBox) (m : ℚ) : QBox := ⟨b.x0 - m, b.x1 + m, b.y0 - m, b.y1 + m⟩

def rectBox (x0 y0 x1 y1 : ℚ) : QBox := ⟨x0, x1, y0, y1⟩

def DrawOp.box : DrawOp → QBox
  | .fillCircle c rad _ => (P.box c).grow |rad|
  | .strokeCircle c rad _ w => (P.box c).grow (|rad| + |w|)
  | .line a b _ w => ((P.box a).union (P.box b)).grow |w|
  | .fillTriangle a b c _ => ((P.box a).union (P.box b)).union (P.box c)
  | .fillRect x0 y0 x1 y1 _ => rectBox x0 y0 x1 y1
  | .strokeRect x0 y0 x1 y1 _ w => (rectBox x0 y0 x1 y1).grow |w|
  | .fillRoundedRect x0 y0 x1 y1 _ _ => rectBox x0 y0 x1 y1
  | .strokeRoundedRect x0 y0 x1 y1 _ _ w => (rectBox x0 y0 x1 y1).grow |w|
  | .label _ x y w h _ => ⟨x, x + w, y, y + h⟩

def QBox.containsR (b : QBox) (p : ℝ × ℝ) : Prop :=
  (b.x0 : ℝ) ≤ p.1 ∧ p.1 ≤ (b.x1 : ℝ) ∧ (b.y0 : ℝ) ≤ p.2 ∧ p.2 ≤ (b.y1 : ℝ)

/-- The box sits inside the square of half-side `B` centered at `(c, c)`. -/
def QBox.within (b : QBox) (c B : ℚ) : Prop :=
  c - B ≤ b.x0 ∧ b.x1 ≤ c + B ∧ c - B ≤ b.y0 ∧ b.y1 ≤ c + B

/-- The four corner pixels of a `size × size` canvas. -/
def cornersQ (s : ℕ) : List (ℚ × ℚ) :=
  [(0, 0), ((s : ℚ) - 1, 0), (0, (s : ℚ) - 1), ((s : ℚ) - 1, (s : ℚ) - 1)]

/-- A rational pixel coordinate as a point of the real plane. -/
def cornerPx (q : ℚ × ℚ) : ℝ × ℝ := ((q.1 : ℝ), (q.2 : ℝ))

/-- The canvas-center pixel `(size // 2, size // 2)`. -/
def centerPx (s : ℕ) : ℝ × ℝ := (((pcenter s : ℤ) : ℝ), ((pcenter s : ℤ) : ℝ))

/-! ## Structural predicates on traces -/

def isTriangleOp : DrawOp → Bool
  | .fillTriangle _ _ _ _ => true
  | _ => false

def isLabelOp : DrawOp → Bool
  | .label _ _ _ _ _ _ => true
  | _ => false

/-- The fallback cross is the only white `line` the primary composer
draws (the strand lines are light blue). -/
def isWhiteLine : DrawOp → Bool
  | .line _ _ col _ => col = whiteC
  | _ => false

/-- An arc with its arrowhead travels clockwise on screen (y grows
downward, so increasing polar angle moves clockwise visually): the
sampled angles increase and the arrowhead caps the last sample. -/
def ClockwiseCapped (angles : List ℤ) (pts : List P) (apex : P) : Prop :=
  List.Chain' (· < ·) angles ∧ pts.getLast? = some apex

/-- An arc with its arrowhead travels counter-clockwise on screen: the
samples are generated in increasing polar angle but the arrowhead caps
the first sample, so travelling toward the head traverses decreasing
polar angle (counter-clockwise visually). -/
def CounterClockwiseCapped (angles : List ℤ) (pts : List P) (apex : P) : Prop :=
  List.Chain' (· < ·) angles ∧ pts.head? = some apex

/-! # Theorems

First the generic lemma library: numeric bridges for `pyInt`/`pyDiv`,
value lemmas for symbolic coordinates, bounding-box containment, and
the compositing-run facts every pixel claim reduces to. -/

theorem pyInt_le (q : ℚ) : (pyInt q : ℚ) ≤ q := Int.floor_le q

theorem lt_pyInt_add_one (q : ℚ) : q < (pyInt q : ℚ) + 1 := Int.lt_floor_add_one q

theorem pyInt_nonneg {q : ℚ} (h : 0 ≤ q) : 0 ≤ pyInt q := Int.floor_nonneg.mpr h

theorem pyDiv_eq_ediv (a : ℤ) {b : ℤ} (hb : 0 < b) : pyDiv a b = a / b :=
  Int.fdiv_eq_ediv a hb.le

theorem pyDiv_cast_le (a : ℤ) {b : ℤ} (hb : 0 < b) :
    ((pyDiv a b : ℤ) : ℚ) ≤ (a : ℚ) / (b : ℚ) := by
  rw [pyDiv_eq_ediv a hb]
  have h1 : b * (a / b) + a % b = a := Int.ediv_add_emod a b
  have h2 : (0 : ℤ) ≤ a % b := Int.emod_nonneg a hb.ne'
  have hbq : (0 : ℚ) < (b : ℚ) := by exact_mod_cast hb
  have qh1 : (b : ℚ) * ((a / b : ℤ) : ℚ) + ((a % b : ℤ) : ℚ) = (a : ℚ) := by
    exact_mod_cast h1
  have qh2 : (0 : ℚ) ≤ ((a % b : ℤ) : ℚ) := by exact_mod_cast h2
  rw [le_div_iff₀ hbq]
  nlinarith [qh1, qh2]

theorem lt_pyDiv_cast_add_one (a : ℤ) {b : ℤ} (hb : 0 < b) :
    (a : ℚ) / (b : ℚ) < ((pyDiv a b : ℤ) : ℚ) + 1 := by
  rw [pyDiv_eq_ediv a hb]
  have h1 : b * (a / b) + a % b = a := Int.ediv_add_emod a b
  have h2 : a % b < b := Int.emod_lt_of_pos a hb
  have hbq : (0 : ℚ) < (b : ℚ) := by exact_mod_cast hb
  have qh1 : (b : ℚ) * ((a / b : ℤ) : ℚ) + ((a % b : ℤ) : ℚ) = (a : ℚ) := by
    exact_mod_cast h1
  have qh2 : ((a % b : ℤ) : ℚ) < (b : ℚ) := by exact_mod_cast h2
  rw [div_lt_iff₀ hbq]
  nlinarith [qh1, qh2]

theorem pyDiv_nonneg {a b : ℤ} (ha : 0 ≤ a) (hb : 0 < b) : 0 ≤ pyDiv a b := by
  rw [pyDiv_eq_ediv a hb]; exact Int.ediv_nonneg ha hb.le

theorem pyDiv_le_self {a b : ℤ} (ha : 0 ≤ a) (hb : 0 < b) : pyDiv a b ≤ a := by
  rw [pyDiv_eq_ediv a hb]
  exact Int.ediv_le_self b ha

/-! ## Coordinate values -/

theorem val_const (q : ℚ) : (Coord.const q).val = (q : ℝ) := by
  simp [Coord.const, Coord.val]

theorem pconst_x_val (qx qy : ℚ) : (P.const qx qy).x.val = (qx : ℝ) := val_const qx

theorem pconst_y_val (qx qy : ℚ) : (P.const qx qy).y.val = (qy : ℝ) := val_const qy

theorem degAngle_val (d : ℚ) : (degAngle d).val = (d : ℝ) / 180 * Real.pi := by
  simp only [degAngle, Angle.val]
  push_cast
  ring

theorem polarP_x_val (cx cy r : ℚ) (a : Angle) :
    (polarP cx cy r a).x.val = (cx : ℝ) + (r : ℝ) * Real.cos a.val := by
  simp [polarP, Coord.val, PTerm.val]

theorem polarP_y_val (cx cy r : ℚ) (a : Angle) :
    (polarP cx cy r a).y.val = (cy : ℝ) + (r : ℝ) * Real.sin a.val := by
  simp [polarP, Coord.val, PTerm.val]

theorem addPolar_x_val (p : P) (k : ℚ) (a : Angle) :
    (p.addPolar k a).x.val = p.x.val + (k : ℝ) * Real.cos a.val := by
  simp [P.addPolar, Coord.val, PTerm.val, List.map_append, List.sum_append]
  ring

theorem addPolar_y_val (p : P) (k : ℚ) (a : Angle) :
    (p.addPolar k a).y.val = p.y.val + (k : ℝ) * Real.sin a.val := by
  simp [P.addPolar, Coord.val, PTerm.val, List.map_append, List.sum_append]
  ring

theorem pterm_val_abs_le (t : PTerm) : |t.val| ≤ ((|t.k| : ℚ) : ℝ) := by
  have h1 : |t.val| = |(t.k : ℝ)| * |(match t.f with
      | Trig.cos => Real.cos t.ang.val
      | Trig.sin => Real.sin t.ang.val)| := by
    rw [PTerm.val, abs_mul]
  rw [h1]
  push_cast
  rcases t.f with _ | _
  · calc |(t.k : ℝ)| * |Real.cos t.ang.val| ≤ |(t.k : ℝ)| * 1 := by
          exact mul_le_mul_of_nonneg_left (Real.abs_cos_le_one _) (abs_nonneg _)
    _ = |(t.k : ℝ)| := mul_one _
  · calc |(t.k : ℝ)| * |Real.sin t.ang.val| ≤ |(t.k : ℝ)| * 1 := by
          exact mul_le_mul_of_nonneg_left (Real.abs_sin_le_one _) (abs_nonneg _)
    _ = |(t.k : ℝ)| := mul_one _

theorem terms_sum_abs_le (ts : List PTerm) :
    |(ts.map PTerm.val).sum| ≤ (((ts.map fun t => |t.k|).sum : ℚ) : ℝ) := by
  induction ts with
  | nil => simp
  | cons t ts ih =>
      simp only [List.map_cons, List.sum_cons, Rat.cast_add]
      calc |t.val + (ts.map PTerm.val).sum| ≤ |t.val| + |(ts.map PTerm.val).sum| := abs_add _ _
        _ ≤ ((|t.k| : ℚ) : ℝ) + (((ts.map fun t => |t.k|).sum : ℚ) : ℝ) :=
            add_le_add (pterm_val_abs_le t) ih

theorem coord_val_ge_lo (c : Coord) : ((c.lo : ℚ) : ℝ) ≤ c.val := by
  have h2 := abs_le.mp (terms_sum_abs_le c.ts)
  simp only [Coord.lo, Coord.spread, Coord.val, Rat.cast_sub]
  linarith [h2.1]

theorem coord_val_le_hi (c : Coord) : c.val ≤ ((c.hi : ℚ) : ℝ) := by
  have h2 := abs_le.mp (terms_sum_abs_le c.ts)
  simp only [Coord.hi, Coord.spread, Coord.val, Rat.cast_add]
  linarith [h2.2]

/-! ## Coverage is confined to the bounding box -/

theorem abs_le_of_sq_le_sq {x r : ℝ} (h : x ^ 2 ≤ r ^ 2) (hr : 0 ≤ r) :
    -r ≤ x ∧ x ≤ r := by
  constructor <;> nlinarith

theorem convex_ge {t ax bx m : ℝ} (ht0 : 0 ≤ t) (ht1 : t ≤ 1)
    (ha : m ≤ ax) (hb : m ≤ bx) : m ≤ (1 - t) * ax + t * bx := by nlinarith

theorem convex_le {t ax bx m : ℝ} (ht0 : 0 ≤ t) (ht1 : t ≤ 1)
    (ha : ax ≤ m) (hb : bx ≤ m) : (1 - t) * ax + t * bx ≤ m := by nlinarith

theorem convex3_ge {l₁ l₂ l₃ a b c m : ℝ} (h₁ : 0 ≤ l₁) (h₂ : 0 ≤ l₂) (h₃ : 0 ≤ l₃)
    (hs : l₁ + l₂ + l₃ = 1) (ha : m ≤ a) (hb : m ≤ b) (hc : m ≤ c) :
    m ≤ l₁ * a + l₂ * b + l₃ * c := by
  have hs' : l₁ * m + l₂ * m + l₃ * m = m := by linear_combination m * hs
  have p1 := mul_le_mul_of_nonneg_left ha h₁
  have p2 := mul_le_mul_of_nonneg_left hb h₂
  have p3 := mul_le_mul_of_nonneg_left hc h₃
  linarith

theorem convex3_le {l₁ l₂ l₃ a b c m : ℝ} (h₁ : 0 ≤ l₁) (h₂ : 0 ≤ l₂) (h₃ : 0 ≤ l₃)
    (hs : l₁ + l₂ + l₃ = 1) (ha : a ≤ m) (hb : b ≤ m) (hc : c ≤ m) :
    l₁ * a + l₂ * b + l₃ * c ≤ m := by
  have hs' : l₁ * m + l₂ * m + l₃ * m = m := by linear_combination m * hs
  have p1 := mul_le_mul_of_nonneg_left ha h₁
  have p2 := mul_le_mul_of_nonneg_left hb h₂
  have p3 := mul_le_mul_of_nonneg_left hc h₃
  linarith

theorem between_of_dist_sq {px cx r : ℝ} (h : (px - cx) ^ 2 ≤ r ^ 2) (hr : 0 ≤ r) :
    cx - r ≤ px ∧ px ≤ cx + r := by
  constructor <;> nlinarith

theorem covers_subset_box (op : DrawOp) (p : ℝ × ℝ) (h : covers op p) :
    op.box.containsR p := by
  rcases op with ⟨c, rad, col⟩ | ⟨c, rad, col, w⟩ | ⟨a, b, col, w⟩ | ⟨v₁, v₂, v₃, col⟩ |
    ⟨x0, y0, x1, y1, col⟩ | ⟨x0, y0, x1, y1, col, w⟩ | ⟨x0, y0, x1, y1, rad, col⟩ |
    ⟨x0, y0, x1, y1, rad, col, w⟩ | ⟨txt, x, y, w, hh, col⟩
  · -- fillCircle
    simp only [covers] at h
    have hr : (0 : ℝ) ≤ |(rad : ℝ)| := abs_nonneg _
    have hx : (p.1 - c.x.val) ^ 2 ≤ |(rad : ℝ)| ^ 2 := by
      rw [sq_abs]; nlinarith [sq_nonneg (p.2 - c.y.val)]
    have hy : (p.2 - c.y.val) ^ 2 ≤ |(rad : ℝ)| ^ 2 := by
      rw [sq_abs]; nlinarith [sq_nonneg (p.1 - c.x.val)]
    obtain ⟨hx1, hx2⟩ := between_of_dist_sq hx hr
    obtain ⟨hy1, hy2⟩ := between_of_dist_sq hy hr
    have hlx := coord_val_ge_lo c.x
    have hhx := coord_val_le_hi c.x
    have hly := coord_val_ge_lo c.y
    have hhy := coord_val_le_hi c.y
    simp only [DrawOp.box, QBox.grow, P.box, QBox.containsR]
    push_cast
    refine ⟨by linarith, by linarith, by linarith, by linarith⟩
  · -- strokeCircle
    simp only [covers] at h
    have hm : (0 : ℝ) ≤ |(rad : ℝ)| + |(w : ℝ)| := by positivity
    have hsq : ((rad : ℝ) + (w : ℝ)) ^ 2 ≤ (|(rad : ℝ)| + |(w : ℝ)|) ^ 2 := by
      have h1 := pow_le_pow_left₀ (abs_nonneg ((rad : ℝ) + (w : ℝ)))
        (abs_add (rad : ℝ) (w : ℝ)) 2
      rw [sq_abs] at h1
      exact h1
    have hd : (p.1 - c.x.val) ^ 2 + (p.2 - c.y.val) ^ 2 ≤ (|(rad : ℝ)| + |(w : ℝ)|) ^ 2 := by
      linarith [h.2]
    have hx : (p.1 - c.x.val) ^ 2 ≤ (|(rad : ℝ)| + |(w : ℝ)|) ^ 2 := by
      nlinarith [sq_nonneg (p.2 - c.y.val)]
    have hy : (p.2 - c.y.val) ^ 2 ≤ (|(rad : ℝ)| + |(w : ℝ)|) ^ 2 := by
      nlinarith [sq_nonneg (p.1 - c.x.val)]
    obtain ⟨hx1, hx2⟩ := between_of_dist_sq hx hm
    obtain ⟨hy1, hy2⟩ := between_of_dist_sq hy hm
    have hlx := coord_val_ge_lo c.x
    have hhx := coord_val_le_hi c.x
    have hly := coord_val_ge_lo c.y
    have hhy := coord_val_le_hi c.y
    simp only [DrawOp.box, QBox.grow, P.box, QBox.containsR]
    push_cast
    refine ⟨by linarith, by linarith, by linarith, by linarith⟩
  · -- line
    obtain ⟨t, ht0, ht1, hd⟩ := h
    have hwabs : (0 : ℝ) ≤ |(w : ℝ)| := abs_nonneg _
    have hx : (p.1 - ((1 - t) * a.x.val + t * b.x.val)) ^ 2 ≤ |(w : ℝ)| ^ 2 := by
      rw [sq_abs]
      nlinarith [sq_nonneg (p.2 - ((1 - t) * a.y.val + t * b.y.val)), sq_nonneg ((w : ℝ))]
    have hy : (p.2 - ((1 - t) * a.y.val + t * b.y.val)) ^ 2 ≤ |(w : ℝ)| ^ 2 := by
      rw [sq_abs]
      nlinarith [sq_nonneg (p.1 - ((1 - t) * a.x.val + t * b.x.val)), sq_nonneg ((w : ℝ))]
    obtain ⟨hx1, hx2⟩ := between_of_dist_sq hx hwabs
    obtain ⟨hy1, hy2⟩ := between_of_dist_sq hy hwabs
    have hax1 := coord_val_ge_lo a.x
    have hax2 := coord_val_le_hi a.x
    have hbx1 := coord_val_ge_lo b.x
    have hbx2 := coord_val_le_hi b.x
    have hay1 := coord_val_ge_lo a.y
    have hay2 := coord_val_le_hi a.y
    have hby1 := coord_val_ge_lo b.y
    have hby2 := coord_val_le_hi b.y
    have hqx1 : min ((a.x.lo : ℚ) : ℝ) ((b.x.lo : ℚ) : ℝ) ≤ (1 - t) * a.x.val + t * b.x.val :=
      convex_ge ht0 ht1 ((min_le_left _ _).trans hax1) ((min_le_right _ _).trans hbx1)
    have hqx2 : (1 - t) * a.x.val + t * b.x.val ≤ max ((a.x.hi : ℚ) : ℝ) ((b.x.hi : ℚ) : ℝ) :=
      convex_le ht0 ht1 (hax2.trans (le_max_left _ _)) (hbx2.trans (le_max_right _ _))
    have hqy1 : min ((a.y.lo : ℚ) : ℝ) ((b.y.lo : ℚ) : ℝ) ≤ (1 - t) * a.y.val + t * b.y.val :=
      convex_ge ht0 ht1 ((min_le_left _ _).trans hay1) ((min_le_right _ _).trans hby1)
    have hqy2 : (1 - t) * a.y.val + t * b.y.val ≤ max ((a.y.hi : ℚ) : ℝ) ((b.y.hi : ℚ) : ℝ) :=
      convex_le ht0 ht1 (hay2.trans (le_max_left _ _)) (hby2.trans (le_max_right _ _))
    simp only [DrawOp.box, QBox.grow, QBox.union, P.box, QBox.containsR]
    push_cast
    refine ⟨by linarith, by linarith, by linarith, by linarith⟩
  · -- fillTriangle
    obtain ⟨l₁, l₂, l₃, h₁, h₂, h₃, hs, hx, hy⟩ := h
    have b₁x1 := coord_val_ge_lo v₁.x
    have b₁x2 := coord_val_le_hi v₁.x
    have b₂x1 := coord_val_ge_lo v₂.x
    have b₂x2 := coord_val_le_hi v₂.x
    have b₃x1 := coord_val_ge_lo v₃.x
    have b₃x2 := coord_val_le_hi v₃.x
    have b₁y1 := coord_val_ge_lo v₁.y
    have b₁y2 := coord_val_le_hi v₁.y
    have b₂y1 := coord_val_ge_lo v₂.y
    have b₂y2 := coord_val_le_hi v₂.y
    have b₃y1 := coord_val_ge_lo v₃.y
    have b₃y2 := coord_val_le_hi v₃.y
    set mx := min (min ((v₁.x.lo : ℚ) : ℝ) ((v₂.x.lo : ℚ) : ℝ)) ((v₃.x.lo : ℚ) : ℝ) with hmx
    set Mx := max (max ((v₁.x.hi : ℚ) : ℝ) ((v₂.x.hi : ℚ) : ℝ)) ((v₃.x.hi : ℚ) : ℝ) with hMx
    set my := min (min ((v₁.y.lo : ℚ) : ℝ) ((v₂.y.lo : ℚ) : ℝ)) ((v₃.y.lo : ℚ) : ℝ) with hmy
    set My := max (max ((v₁.y.hi : ℚ) : ℝ) ((v₂.y.hi : ℚ) : ℝ)) ((v₃.y.hi : ℚ) : ℝ) with hMy
    have hgx : mx ≤ p.1 := by
      rw [hx]
      exact convex3_ge h₁ h₂ h₃ hs
        (((min_le_left _ _).trans (min_le_left _ _)).trans b₁x1)
        (((min_le_left _ _).trans (min_le_right _ _)).trans b₂x1)
        ((min_le_right _ _).trans b₃x1)
    have hlx : p.1 ≤ Mx := by
      rw [hx]
      exact convex3_le h₁ h₂ h₃ hs
        (b₁x2.trans ((le_max_left _ _).trans (le_max_left _ _)))
        (b₂x2.trans ((le_max_right _ _).trans (le_max_left _ _)))
        (b₃x2.trans (le_max_right _ _))
    have hgy : my ≤ p.2 := by
      rw [hy]
      exact convex3_ge h₁ h₂ h₃ hs
        (((min_le_left _ _).trans (min_le_left _ _)).trans b₁y1)
        (((min_le_left _ _).trans (min_le_right _ _)).trans b₂y1)
        ((min_le_right _ _).trans b₃y1)
    have hly : p.2 ≤ My := by
      rw [hy]
      exact convex3_le h₁ h₂ h₃ hs
        (b₁y2.trans ((le_max_left _ _).trans (le_max_left _ _)))
        (b₂y2.trans ((le_max_right _ _).trans (le_max_left _ _)))
        (b₃y2.trans (le_max_right _ _))
    simp only [DrawOp.box, QBox.union, P.box, QBox.containsR]
    push_cast
    rw [hmx] at hgx
    rw [hMx] at hlx
    rw [hmy] at hgy
    rw [hMy] at hly
    refine ⟨by linarith, by linarith, by linarith, by linarith⟩
  · -- fillRect
    exact h
  · -- strokeRect
    obtain ⟨⟨ha, hb, hc, hd⟩, -⟩ := h
    have hle : ((w : ℚ) : ℝ) ≤ |(w : ℝ)| := le_abs_self _
    simp only [DrawOp.box, QBox.grow, rectBox, QBox.containsR]
    push_cast
    push_cast at ha hb hc hd
    refine ⟨by linarith, by linarith, by linarith, by linarith⟩
  · -- fillRoundedRect
    exact h.1
  · -- strokeRoundedRect
    obtain ⟨⟨ha, hb, hc, hd⟩, -⟩ := h
    have hle : ((w : ℚ) : ℝ) ≤ |(w : ℝ)| := le_abs_self _
    simp only [DrawOp.box, QBox.grow, rectBox, QBox.containsR]
    push_cast
    push_cast at ha hb hc hd
    refine ⟨by linarith, by linarith, by linarith, by linarith⟩
  · -- label
    exact h


/-- A pixel strictly outside an operation's `within`-square is never
touched by the operation. -/
theorem not_covers_of_within {op : DrawOp} {c B qx qy : ℚ}
    (hw : op.box.within c B)
    (hfar : qx < c - B ∨ c + B < qx ∨ qy < c - B ∨ c + B < qy) :
    ¬ covers op ((qx : ℝ), (qy : ℝ)) := by
  intro hcov
  obtain ⟨h1, h2, h3, h4⟩ := covers_subset_box op _ hcov
  obtain ⟨w1, w2, w3, w4⟩ := hw
  have h1' : ((op.box.x0 : ℚ) : ℝ) ≤ ((qx : ℚ) : ℝ) := h1
  have h2' : ((qx : ℚ) : ℝ) ≤ ((op.box.x1 : ℚ) : ℝ) := h2
  have h3' : ((op.box.y0 : ℚ) : ℝ) ≤ ((qy : ℚ) : ℝ) := h3
  have h4' : ((qy : ℚ) : ℝ) ≤ ((op.box.y1 : ℚ) : ℝ) := h4
  have q1 : op.box.x0 ≤ qx := by exact_mod_cast h1'
  have q2 : qx ≤ op.box.x1 := by exact_mod_cast h2'
  have q3 : op.box.y0 ≤ qy := by exact_mod_cast h3'
  have q4 : qy ≤ op.box.y1 := by exact_mod_cast h4'
  rcases hfar with h | h | h | h <;> linarith

/-! ## Compositing-run lemmas -/

theorem overC_src_transparent (dst src : Color) (h : src.a = 0) : overC dst src = dst := by
  rcases dst with ⟨r, g, b, a⟩
  simp only [overC, h]
  norm_num

theorem overC_alpha_src (dst src : Color) (h : src.a = 255) : (overC dst src).a = 255 := by
  simp only [overC, h]
  norm_num

theorem overC_alpha_dst (dst src : Color) (h : dst.a = 255) : (overC dst src).a = 255 := by
  simp only [overC, h]
  ring

theorem colorRun_total (p : ℝ × ℝ) (ops : List DrawOp) (c₀ : Color) :
    ∃ c, ColorRun p c₀ ops c := by
  induction ops generalizing c₀ with
  | nil => exact ⟨c₀, ColorRun.nil c₀⟩
  | cons op ops ih =>
      by_cases hcov : covers op p
      · obtain ⟨c, hc⟩ := ih (overC c₀ op.color)
        exact ⟨c, ColorRun.cov hcov hc⟩
      · obtain ⟨c, hc⟩ := ih c₀
        exact ⟨c, ColorRun.ncov hcov hc⟩

theorem colorRun_det {p : ℝ × ℝ} {ops : List DrawOp} {c₀ c c' : Color}
    (h : ColorRun p c₀ ops c) (h' : ColorRun p c₀ ops c') : c = c' := by
  induction ops generalizing c₀ with
  | nil => cases h; cases h'; rfl
  | cons op ops ih =>
      cases h with
      | cov hc hrest =>
          cases h' with
          | cov hc' hrest' => exact ih hrest hrest'
          | ncov hc' _ => exact absurd hc hc'
      | ncov hc hrest =>
          cases h' with
          | cov hc' _ => exact absurd hc' hc
          | ncov hc' hrest' => exact ih hrest hrest'

theorem colorRun_append_split {p : ℝ × ℝ} {l₁ l₂ : List DrawOp} {c₀ c : Color}
    (h : ColorRun p c₀ (l₁ ++ l₂) c) :
    ∃ c₁, ColorRun p c₀ l₁ c₁ ∧ ColorRun p c₁ l₂ c := by
  induction l₁ generalizing c₀ with
  | nil => exact ⟨c₀, ColorRun.nil c₀, h⟩
  | cons op l₁ ih =>
      cases h with
      | cov hc hrest =>
          obtain ⟨c₁, h1, h2⟩ := ih hrest
          exact ⟨c₁, ColorRun.cov hc h1, h2⟩
      | ncov hc hrest =>
          obtain ⟨c₁, h1, h2⟩ := ih hrest
          exact ⟨c₁, ColorRun.ncov hc h1, h2⟩

theorem colorRun_alpha_preserved {p : ℝ × ℝ} {ops : List DrawOp} {c₀ c : Color}
    (h255 : c₀.a = 255) (h : ColorRun p c₀ ops c) : c.a = 255 := by
  induction ops generalizing c₀ with
  | nil => cases h; exact h255
  | cons op ops ih =>
      cases h with
      | cov hc hrest => exact ih (overC_alpha_dst c₀ op.color h255) hrest
      | ncov hc hrest => exact ih h255 hrest

/-- After any run of a trace split as `l₁ ++ op :: l₂` where `op` is
opaque and covers the pixel, the pixel's alpha is 255. -/
theorem colorRun_opaque_hit {p : ℝ × ℝ} {l₁ l₂ : List DrawOp} {op : DrawOp} {c₀ c : Color}
    (hcov : covers op p) (hop : op.color.a = 255)
    (h : ColorRun p c₀ (l₁ ++ op :: l₂) c) : c.a = 255 := by
  obtain ⟨c₁, -, h2⟩ := colorRun_append_split h
  cases h2 with
  | cov hc hrest => exact colorRun_alpha_preserved (overC_alpha_src c₁ op.color hop) hrest
  | ncov hc _ => exact absurd hcov hc

theorem colorRun_all_miss {p : ℝ × ℝ} {ops : List DrawOp} {c₀ c : Color}
    (hmiss : ∀ op ∈ ops, ¬ covers op p) (h : ColorRun p c₀ ops c) : c = c₀ := by
  induction ops generalizing c₀ with
  | nil => cases h; rfl
  | cons op ops ih =>
      cases h with
      | cov hc hrest => exact absurd hc (hmiss op (List.mem_cons_self op ops))
      | ncov hc hrest =>
          exact ih (fun o ho => hmiss o (List.mem_cons_of_mem _ ho)) hrest

theorem finalAlpha_iff_opaque_hit {p : ℝ × ℝ} {l₁ l₂ : List DrawOp} {op : DrawOp}
    (hcov : covers op p) (hop : op.color.a = 255) :
    ∀ a, FinalAlpha (l₁ ++ op :: l₂) p a ↔ a = 255 := by
  intro a
  constructor
  · rintro ⟨c, hrun, rfl⟩
    exact colorRun_opaque_hit hcov hop hrun
  · rintro rfl
    obtain ⟨c, hrun⟩ := colorRun_total p (l₁ ++ op :: l₂) clearC
    exact ⟨c, hrun, colorRun_opaque_hit hcov hop hrun⟩

theorem finalAlpha_iff_all_miss {p : ℝ × ℝ} {ops : List DrawOp}
    (hmiss : ∀ op ∈ ops, ¬ covers op p) :
    ∀ a, FinalAlpha ops p a ↔ a = 0 := by
  intro a
  constructor
  · rintro ⟨c, hrun, rfl⟩
    rw [colorRun_all_miss hmiss hrun]
    rfl
  · rintro rfl
    obtain ⟨c, hrun⟩ := colorRun_total p ops clearC
    refine ⟨c, hrun, ?_⟩
    rw [colorRun_all_miss hmiss hrun]
    rfl

/-! ## Geometry-utility facts -/

theorem linspace_length (n : ℕ) : (linspace n).length = n := by
  unfold linspace
  split <;> simp

theorem linspace_mem_bounds {n : ℕ} {t : ℚ} (h : t ∈ linspace n) : 0 ≤ t ∧ t ≤ 1 := by
  unfold linspace at h
  split at h
  · next hn =>
      obtain ⟨i, -, rfl⟩ := List.mem_map.mp h
      norm_num
  · next hn =>
      obtain ⟨i, hi, rfl⟩ := List.mem_map.mp h
      rw [List.mem_range] at hi
      have h1 : (1 : ℚ) ≤ (n : ℚ) - 1 := by
        have : (2 : ℕ) ≤ n := by omega
        have : (2 : ℚ) ≤ (n : ℚ) := by exact_mod_cast this
        linarith
      have hpos : (0 : ℚ) < (n : ℚ) - 1 := by linarith
      constructor
      · positivity
      · rw [div_le_one hpos]
        have : (i : ℚ) ≤ (n : ℚ) - 1 := by
          have : (i : ℚ) + 1 ≤ (n : ℚ) := by exact_mod_cast Nat.succ_le_of_lt hi
          linarith
        exact this

/-- C8: `spiralPoints` is pure and deterministic — identical arguments
give identical sequences — and it returns exactly `n` points; the
fiber strands of `create_fiber_icon` are its instance with `n = 20`
samples per strand (so each strand has exactly 20 points). -/
theorem spiralPoints_deterministic_length (cx cy : ℚ) (a0 : Angle)
    (rIn rOut turns : ℚ) (n : ℕ) :
    spiralPoints cx cy a0 rIn rOut turns n = spiralPoints cx cy a0 rIn rOut turns n ∧
    (spiralPoints cx cy a0 rIn rOut turns n).length = n ∧
    (∀ (s : ℕ) (offset : ℚ),
      strandPts s offset =
        spiralPoints (pcenter s : ℚ) (pcenter s : ℚ) (degAngle offset)
          ((3 / 10) * (pinner s : ℚ)) ((7 / 10) * (pinner s : ℚ)) (3 / 4) 20 ∧
      (strandPts s offset).length = 20) := by
  refine ⟨rfl, ?_, fun s offset => ⟨rfl, ?_⟩⟩
  · rw [spiralPoints, List.length_map, linspace_length]
  · rw [strandPts, spiralPoints, List.length_map, linspace_length]

/-- C7: an `arcPoints` sweep covering exactly 360° in 5° steps yields
exactly 72 points (the loop excludes the endpoint); every produced
point lies at distance exactly `radius` from the center — in
particular within the spec's 1e-6 tolerance; and normalizing an angle
by subtracting 360° does not change the point produced. -/
theorem arcPoints_sweep_facts (cx cy r : ℚ) (start stop : ℤ) (hr : 0 ≤ r) :
    (arcPointsDeg cx cy r start (start + 360)).length = 72 ∧
    (∀ p ∈ arcPointsDeg cx cy r start stop,
      (p.x.val - (cx : ℝ)) ^ 2 + (p.y.val - (cy : ℝ)) ^ 2 = ((r : ℚ) : ℝ) ^ 2 ∧
      Real.sqrt ((p.x.val - (cx : ℝ)) ^ 2 + (p.y.val - (cy : ℝ)) ^ 2) = (r : ℝ) ∧
      |Real.sqrt ((p.x.val - (cx : ℝ)) ^ 2 + (p.y.val - (cy : ℝ)) ^ 2) - (r : ℝ)| ≤
        1 / 1000000) ∧
    (∀ a : ℤ,
      (polarP cx cy r (degAngle ((normAngle a : ℤ) : ℚ))).x.val =
        (polarP cx cy r (degAngle ((a : ℤ) : ℚ))).x.val ∧
      (polarP cx cy r (degAngle ((normAngle a : ℤ) : ℚ))).y.val =
        (polarP cx cy r (degAngle ((a : ℤ) : ℚ))).y.val) := by
  refine ⟨?_, ?_, ?_⟩
  · have h360 : start + 360 - start = 360 := by ring
    rw [arcPointsDeg, List.length_map, arcAngles, List.length_map, List.length_range, h360]
    rfl
  · intro p hp
    rw [arcPointsDeg] at hp
    obtain ⟨a, -, rfl⟩ := List.mem_map.mp hp
    have hcircle : ((polarP cx cy r (degAngle ((normAngle a : ℤ) : ℚ))).x.val - (cx : ℝ)) ^ 2 +
        ((polarP cx cy r (degAngle ((normAngle a : ℤ) : ℚ))).y.val - (cy : ℝ)) ^ 2 =
        ((r : ℚ) : ℝ) ^ 2 := by
      rw [polarP_x_val, polarP_y_val]
      have hpyth := Real.sin_sq_add_cos_sq (degAngle ((normAngle a : ℤ) : ℚ)).val
      ring_nf
      nlinarith [hpyth]
    have hrR : (0 : ℝ) ≤ (r : ℝ) := by exact_mod_cast hr
    have hsqrt : Real.sqrt (((polarP cx cy r (degAngle ((normAngle a : ℤ) : ℚ))).x.val -
        (cx : ℝ)) ^ 2 + ((polarP cx cy r (degAngle ((normAngle a : ℤ) : ℚ))).y.val -
        (cy : ℝ)) ^ 2) = (r : ℝ) := by
      rw [hcircle]
      exact Real.sqrt_sq hrR
    refine ⟨hcircle, hsqrt, ?_⟩
    rw [hsqrt]
    norm_num
  · intro a
    unfold normAngle
    split
    · next h360 =>
        have hx : ((a - 360 : ℤ) : ℚ) = ((a : ℤ) : ℚ) - 360 := by push_cast; ring
        rw [polarP_x_val, polarP_x_val, polarP_y_val, polarP_y_val, hx,
          degAngle_val, degAngle_val]
        have harg : (((a : ℤ) : ℚ) - 360 : ℚ) = ((a : ℤ) : ℚ) - 360 := rfl
        have hang : ((((a : ℤ) : ℚ) - 360 : ℚ) : ℝ) / 180 * Real.pi =
            (((a : ℤ) : ℚ) : ℝ) / 180 * Real.pi - 2 * Real.pi := by
          push_cast
          ring
        rw [hang, Real.cos_sub_two_pi, Real.sin_sub_two_pi]
        exact ⟨rfl, rfl⟩
    · exact ⟨rfl, rfl⟩

/-- C7 witness: the inner-arc instance of `create_sync_icon` — center
`(48, 48)`, radius 16, start 225° — yields 72 points on a full sweep. -/
theorem arcPoints_sweep_facts_witness :
    (arcPointsDeg 48 48 16 225 (225 + 360)).length = 72 ∧ (0 : ℚ) ≤ 16 :=
  ⟨(arcPoints_sweep_facts 48 48 16 225 585 (by norm_num)).1, by norm_num⟩

/-! ## The export pipeline -/

theorem runBatch_names (ok : String → Bool) (l : List (String × Canvas)) :
    (runBatch ok l).1.map (fun r => r.1) = (l.map Prod.fst).takeWhile ok := by
  induction l with
  | nil => rfl
  | cons j l ih =>
      rcases j with ⟨n, cv⟩
      rw [runBatch, List.map_cons, List.takeWhile_cons]
      by_cases hok : ok n
      · simp only [hok, if_true, List.map_cons, ih]
      · simp only [hok, if_false, Bool.false_eq_true, List.map_nil]

theorem runBatch_none_iff (ok : String → Bool) (l : List (String × Canvas)) :
    (runBatch ok l).2 = none ↔ ∀ n ∈ l.map Prod.fst, ok n = true := by
  induction l with
  | nil => simp [runBatch]
  | cons j l ih =>
      rcases j with ⟨n, cv⟩
      rw [runBatch]
      by_cases hok : ok n
      · simp only [hok, if_true, List.map_cons, List.mem_cons]
        rw [ih]
        constructor
        · rintro h m (rfl | hm)
          · exact hok
          · exact h m hm
        · intro h m hm
          exact h m (Or.inr hm)
      · simp only [hok, if_false]
        constructor
        · intro h
          cases h
        · intro h
          exact absurd (h n (by simp)) hok

theorem iconJobs_fst (fontOk : Bool) (tw th : ℤ) :
    (iconJobs fontOk tw th).map Prod.fst = iconNames := by
  simp [iconJobs, iconNames, List.map_map, Function.comp]

/-- C1 (corrected): `generate_all_icons` wraps no error handling around
the batch, so the first failing save aborts everything after it: the
written files are exactly the prefix of the job list before the first
failure, and the run ends without error precisely when every save
succeeded — there is no per-file status report for a partial batch. -/
theorem generate_all_icons_first_failure_aborts (fontOk : Bool) (tw th : ℤ)
    (ok : String → Bool) :
    ((generate_all_icons fontOk tw th ok).1.map (fun r => r.1) =
      iconNames.takeWhile ok) ∧
    ((generate_all_icons fontOk tw th ok).2 = none ↔ ∀ n ∈ iconNames, ok n = true) := by
  constructor
  · rw [generate_all_icons, runBatch_names, iconJobs_fst]
  · rw [generate_all_icons, runBatch_none_iff, iconJobs_fst]

/-- C1 counterexample: a batch whose save of `icon-96x96.png` (the
second file) raises `IOError` ends with the error escaping
`generate_all_icons` and only the single file before the failure
written — the other nine files are never attempted, refuting the
claim that a per-file failure is aggregated and the batch continues. -/
theorem generate_all_icons_error_escapes :
    (generate_all_icons true 12 11 (fun n => !(n == "icon-96x96.png"))).2 =
      some IconError.ioError ∧
    (generate_all_icons true 12 11
      (fun n => !(n == "icon-96x96.png"))).1.map (fun r => r.1) = ["icon-72x72.png"] := by
  constructor <;> rfl

/-- C4: running the batch with every save succeeding writes exactly
these 11 files, in order, with the declared raster dimensions
(`N × N` for the primary icons, `96 × 96` for the three shortcuts);
each composer returns a canvas of exactly its requested size. -/
theorem export_writes_exactly_11_files (fontOk : Bool) (tw th : ℤ) :
    generate_all_icons fontOk tw th (fun _ => true) =
      ([("icon-72x72.png", 72, 72), ("icon-96x96.png", 96, 96),
        ("icon-128x128.png", 128, 128), ("icon-144x144.png", 144, 144),
        ("icon-152x152.png", 152, 152), ("icon-192x192.png", 192, 192),
        ("icon-384x384.png", 384, 384), ("icon-512x512.png", 512, 512),
        ("shortcut-capture.png", 96, 96), ("shortcut-assignments.png", 96, 96),
        ("shortcut-sync.png", 96, 96)], none) ∧
    iconNames.length = 11 ∧
    (∀ (s : ℕ) (f : Bool) (tw' th' : ℤ),
      (create_fiber_icon s f tw' th').w = s ∧ (create_fiber_icon s f tw' th').h = s) ∧
    (∀ s : ℕ, (create_capture_icon s).w = s ∧ (create_capture_icon s).h = s ∧
      (create_assignments_icon s).w = s ∧ (create_assignments_icon s).h = s ∧
      (create_sync_icon s).w = s ∧ (create_sync_icon s).h = s) := by
  refine ⟨?_, rfl, fun s f tw' th' => ⟨rfl, rfl⟩,
    fun s => ⟨rfl, rfl, rfl, rfl, rfl, rfl⟩⟩
  rfl

/-! ## C5: layout fractions and their floors -/

/-- C5 counterexample: the strand stroke width `cable_width` is clamped
below by the absolute constant 2 px, so between the SizeMatrix sizes 72
and 144 the icon's proportions are not identical up to scaling:
`cable_width(144)/144 ≠ cable_width(72)/72`. -/
theorem cable_width_not_scale_invariant :
    72 ∈ sizeMatrix ∧ 144 ∈ sizeMatrix ∧
    cable_width 72 = 2 ∧ cable_width 144 = 3 ∧
    (cable_width 144 : ℚ) * 72 ≠ (cable_width 72 : ℚ) * 144 := by
  refine ⟨by simp [sizeMatrix], by simp [sizeMatrix], by decide, by decide, ?_⟩
  have h1 : cable_width 144 = 3 := by decide
  have h2 : cable_width 72 = 2 := by decide
  rw [h1, h2]
  norm_num

/-- C5 (amended): every geometric quantity is derived from `size` alone
— the radii as floors of fixed fractions of `size` (so proportional up
to one pixel of rounding, not exactly), while the stroke widths and
the font size are additionally clamped below by absolute pixel
constants (2 px, 1 px, 12 px), which breaks exact scale invariance. -/
theorem layout_fractions_floors_and_clamps (s : ℕ) :
    ((2 : ℚ) / 5 * s - 1 < (pradius s : ℚ) ∧ (pradius s : ℚ) ≤ 2 / 5 * s) ∧
    ((17 : ℚ) / 20 * (pradius s : ℚ) - 1 < (pinner s : ℚ) ∧
      (pinner s : ℚ) ≤ 17 / 20 * (pradius s : ℚ)) ∧
    ((1 : ℚ) / 5 * (pradius s : ℚ) - 1 < (node_radius s : ℚ) ∧
      (node_radius s : ℚ) ≤ 1 / 5 * (pradius s : ℚ)) ∧
    ((3 : ℚ) / 10 * s - 1 < (sradius s : ℚ) ∧ (sradius s : ℚ) ≤ 3 / 10 * s) ∧
    cable_width s = max 2 (pyDiv (s : ℤ) 40) ∧ 2 ≤ cable_width s ∧
    arrow_width s = max 3 (pyDiv (s : ℤ) 20) ∧ 3 ≤ arrow_width s ∧
    font_size s = max 12 (pyDiv (s : ℤ) 8) ∧ 12 ≤ font_size s := by
  refine ⟨⟨?_, ?_⟩, ⟨?_, ?_⟩, ⟨?_, ?_⟩, ⟨?_, ?_⟩, rfl, le_max_left _ _, rfl,
    le_max_left _ _, rfl, le_max_left _ _⟩
  · have h := lt_pyInt_add_one ((2 * (s : ℚ)) / 5)
    rw [pradius]
    linarith
  · have h := pyInt_le ((2 * (s : ℚ)) / 5)
    rw [pradius]
    linarith
  · have h := lt_pyInt_add_one ((pradius s : ℚ) * (17 / 20))
    rw [pinner]
    linarith
  · have h := pyInt_le ((pradius s : ℚ) * (17 / 20))
    rw [pinner]
    linarith
  · have h := lt_pyInt_add_one ((pradius s : ℚ) * (1 / 5))
    rw [node_radius]
    linarith
  · have h := pyInt_le ((pradius s : ℚ) * (1 / 5))
    rw [node_radius]
    linarith
  · have h := lt_pyInt_add_one ((s : ℚ) * (3 / 10))
    rw [sradius]
    linarith
  · have h := pyInt_le ((s : ℚ) * (3 / 10))
    rw [sradius]
    linarith

/-! ## C2: alpha-0 drawing is a no-op -/

theorem pradius_pos {s : ℕ} (hs : 3 ≤ s) : 1 ≤ pradius s := by
  rw [pradius, pyInt, Int.le_floor]
  have : (3 : ℚ) ≤ (s : ℚ) := by exact_mod_cast hs
  push_cast
  linarith

theorem glowAlpha_self {r : ℤ} (hr : r ≠ 0) : glowAlpha r r = 0 := by
  have hq : ((r : ℤ) : ℚ) ≠ 0 := Int.cast_ne_zero.mpr hr
  rw [glowAlpha, pyInt]
  rw [div_self hq]
  norm_num

/-- C2: compositing a fully transparent (`alpha = 0`) color is a no-op
on every pixel — all four RGBA channels keep their previous value, for
every prior canvas state — and the first iteration of PrimaryIcon's
radial-glow loop is exactly such an operation: its computed alpha
`int(255·(1 − radius/radius)·0.1)` is 0, so the trace's first drawing
operation changes no pixel. -/
theorem alpha_zero_draw_noop :
    (∀ dst src : Color, src.a = 0 → overC dst src = dst) ∧
    (∀ (p : ℝ × ℝ) (c c' : Color) (op : DrawOp), op.color.a = 0 →
      ColorRun p c [op] c' → c' = c) ∧
    (∀ (s : ℕ) (fontOk : Bool) (tw th : ℤ), 3 ≤ s →
      ∃ rest, create_fiber_trace s fontOk tw th =
        DrawOp.fillCircle (P.const (pcenter s : ℚ) (pcenter s : ℚ)) ((pradius s : ℤ) : ℚ)
          (primaryBlueA (glowAlpha (pradius s) (pradius s))) :: rest ∧
        glowAlpha (pradius s) (pradius s) = 0) := by
  refine ⟨overC_src_transparent, ?_, ?_⟩
  · intro p c c' op hop hrun
    cases hrun with
    | cov hc hrest =>
        cases hrest
        exact overC_src_transparent c op.color hop
    | ncov hc hrest =>
        cases hrest
        rfl
  · intro s fontOk tw th hs
    have hr1 : 1 ≤ pradius s := pradius_pos hs
    have htn : (pradius s).toNat = ((pradius s).toNat - 1) + 1 := by omega
    rw [create_fiber_trace, glowOps, htn, List.range_succ_eq_map, List.map_cons]
    simp only [Nat.cast_zero, sub_zero, List.cons_append]
    exact ⟨_, rfl, glowAlpha_self (by omega)⟩

/-- C2 witness: the concrete instance at size 96. -/
theorem alpha_zero_draw_noop_witness :
    ∃ rest, create_fiber_trace 96 true 12 11 =
      DrawOp.fillCircle (P.const (pcenter 96 : ℚ) (pcenter 96 : ℚ)) ((pradius 96 : ℤ) : ℚ)
        (primaryBlueA (glowAlpha (pradius 96) (pradius 96))) :: rest ∧
      glowAlpha (pradius 96) (pradius 96) = 0 :=
  alpha_zero_draw_noop.2.2 96 true 12 11 (by norm_num)

/-! ## C9: label versus cross fallback -/

theorem segList_mem {col : ℕ → Color} {w : ℚ} :
    ∀ {pts : List P} {i : ℕ} {op : DrawOp}, op ∈ segList col w pts i →
      ∃ a b j, op = DrawOp.line a b (col j) w := by
  intro pts
  induction pts with
  | nil =>
      intro i op h
      simp [segList] at h
  | cons a rest ih =>
      intro i op h
      cases rest with
      | nil => simp [segList] at h
      | cons b rest2 =>
          rw [segList] at h
          rcases List.mem_cons.mp h with rfl | h2
          · exact ⟨a, b, i, rfl⟩
          · exact ih h2

/-- Outside the size-gated label/cross branch, the primary trace counts
zero operations of any predicate that rejects circles and the
light-blue strand lines. -/
theorem trace_countP_eq_branch (s : ℕ) (fontOk : Bool) (tw th : ℤ) (pred : DrawOp → Bool)
    (h1 : ∀ c rad col, pred (DrawOp.fillCircle c rad col) = false)
    (h2 : ∀ c rad col w, pred (DrawOp.strokeCircle c rad col w) = false)
    (h3 : ∀ a b j w, pred (DrawOp.line a b (lightBlueA (strandAlpha j)) w) = false) :
    (create_fiber_trace s fontOk tw th).countP pred =
      (if 128 ≤ s then (if fontOk then labelOps s tw th else crossOps s) else []).countP
        pred := by
  rw [create_fiber_trace, List.countP_append, List.countP_append, List.countP_append,
    List.countP_append, List.countP_append]
  have hglow : (glowOps s).countP pred = 0 := by
    rw [List.countP_eq_zero]
    intro op hop
    rw [glowOps] at hop
    obtain ⟨j, -, rfl⟩ := List.mem_map.mp hop
    simp [h1]
  have hstr : ((strandOffsets.map (strandOps s)).flatten).countP pred = 0 := by
    rw [List.countP_eq_zero]
    intro op hop
    obtain ⟨l, hl, hop2⟩ := List.mem_flatten.mp hop
    obtain ⟨o, -, rfl⟩ := List.mem_map.mp hl
    rw [strandOps] at hop2
    obtain ⟨a, b, j, rfl⟩ := segList_mem hop2
    simp [h3]
  have hdot : (dotOps s).countP pred = 0 := by
    rw [List.countP_eq_zero]
    intro op hop
    rw [dotOps] at hop
    obtain ⟨l, hl, hop2⟩ := List.mem_flatten.mp hop
    obtain ⟨a, -, rfl⟩ := List.mem_map.mp hl
    rcases List.mem_cons.mp hop2 with rfl | hop3
    · simp [h1]
    · rcases List.mem_cons.mp hop3 with rfl | hop4
      · simp [h2]
      · cases hop4
  rw [hglow, hstr, hdot]
  simp [List.countP_cons, h1, h2]

/-- C9: for `size ≥ 128` with label rendering available the primary
composer draws the two-pass centered "FF" label (two label operations,
no cross); for `size ≥ 128` with label rendering unavailable it draws
the two white cross lines instead (and no label); for `size < 128`
neither is drawn.  The label branch always draws the two-letter text
`"FF"` centered at the canvas center via the measured text box. -/
theorem label_branch_behavior (s : ℕ) (fontOk : Bool) (tw th : ℤ) :
    (128 ≤ s ∧ fontOk = true →
      (create_fiber_trace s fontOk tw th).countP isLabelOp = 2 ∧
      (create_fiber_trace s fontOk tw th).countP isWhiteLine = 0) ∧
    (128 ≤ s ∧ fontOk = false →
      (create_fiber_trace s fontOk tw th).countP isLabelOp = 0 ∧
      (create_fiber_trace s fontOk tw th).countP isWhiteLine = 2) ∧
    (s < 128 →
      (create_fiber_trace s fontOk tw th).countP isLabelOp = 0 ∧
      (create_fiber_trace s fontOk tw th).countP isWhiteLine = 0) ∧
    "FF".length = 2 ∧
    labelOps s tw th =
      [DrawOp.label "FF" ((pcenter s - pyDiv tw 2 + 1 : ℤ) : ℚ)
          ((pcenter s - pyDiv th 2 + 1 : ℤ) : ℚ) (tw : ℚ) (th : ℚ) grayC,
       DrawOp.label "FF" ((pcenter s - pyDiv tw 2 : ℤ) : ℚ)
          ((pcenter s - pyDiv th 2 : ℤ) : ℚ) (tw : ℚ) (th : ℚ) whiteC] := by
  have hlab := trace_countP_eq_branch s fontOk tw th isLabelOp
    (fun _ _ _ => rfl) (fun _ _ _ _ => rfl) (fun _ _ _ _ => rfl)
  have hwl := trace_countP_eq_branch s fontOk tw th isWhiteLine
    (fun _ _ _ => rfl) (fun _ _ _ _ => rfl)
    (fun a b j w => by simp [isWhiteLine, lightBlueA, whiteC])
  refine ⟨?_, ?_, ?_, rfl, rfl⟩
  · rintro ⟨hs, rfl⟩
    rw [hlab, hwl, if_pos hs, if_pos rfl]
    constructor
    · simp [labelOps, List.countP_cons, isLabelOp]
    · simp [labelOps, List.countP_cons, isWhiteLine]
  · rintro ⟨hs, rfl⟩
    rw [hlab, hwl, if_pos hs]
    constructor
    · simp [crossOps, List.countP_cons, isLabelOp]
    · simp [crossOps, List.countP_cons, isWhiteLine, whiteC]
  · intro hs
    rw [hlab, hwl, if_neg (by omega)]
    simp

/-- C9 witness: concrete instances at sizes 128 (label available /
unavailable) and 96 (below the threshold). -/
theorem label_branch_behavior_witness :
    ((create_fiber_trace 128 true 12 11).countP isLabelOp = 2 ∧
      (create_fiber_trace 128 true 12 11).countP isWhiteLine = 0) ∧
    ((create_fiber_trace 128 false 12 11).countP isLabelOp = 0 ∧
      (create_fiber_trace 128 false 12 11).countP isWhiteLine = 2) ∧
    ((create_fiber_trace 96 true 12 11).countP isLabelOp = 0 ∧
      (create_fiber_trace 96 true 12 11).countP isWhiteLine = 0) :=
  ⟨(label_branch_behavior 128 true 12 11).1 ⟨by norm_num, rfl⟩,
   (label_branch_behavior 128 false 12 11).2.1 ⟨by norm_num, rfl⟩,
   (label_branch_behavior 96 true 12 11).2.2.1 (by norm_num)⟩

/-! ## C6: the sync glyph's two capped arcs -/

theorem pyInt_eq {q : ℚ} {z : ℤ} (h1 : (z : ℚ) ≤ q) (h2 : q < z + 1) : pyInt q = z := by
  rw [pyInt]
  exact Int.floor_eq_iff.mpr ⟨h1, h2⟩

theorem sradius_96 : sradius 96 = 28 := by
  rw [sradius]
  exact pyInt_eq (by norm_num) (by norm_num)

theorem sinner_96 : sinner 96 = 16 := by
  rw [sinner, sradius_96]
  exact pyInt_eq (by norm_num) (by norm_num)

theorem pcenter_96 : pcenter 96 = 48 := by decide

theorem arcAngles_strict_mono (start stop : ℤ) :
    List.Chain' (· < ·) (arcAngles start stop) := by
  rw [arcAngles, List.chain'_map]
  rcases ((stop - start) / 5).toNat with _ | n
  · simp
  · rw [List.chain'_range_succ]
    intro m hm
    push_cast
    omega

/-- C6: `SyncIcon(96)` draws exactly two concentric circular arcs — both
sampled about the canvas center `(48, 48)` with radii 28 and 16 — and
exactly two triangular arrowheads, one per arc, each placed at that
arc's end in its direction of travel: the outer arc's head caps its
last sample (increasing polar angle, i.e. clockwise on a y-down
screen), the inner arc's head caps its first sample, so the inner arc
travels toward its head in decreasing polar angle (counter-clockwise). -/
theorem sync_opposite_capped_arcs :
    create_sync_trace 96 =
      syncOuterSegs 96 ++ [syncOuterHead 96] ++ syncInnerSegs 96 ++ [syncInnerHead 96] ∧
    ClockwiseCapped (arcAngles 45 315) (syncOuterPts 96) (syncOuterApex 96) ∧
    CounterClockwiseCapped (arcAngles 225 585) (syncInnerPts 96) (syncInnerApex 96) ∧
    (create_sync_trace 96).countP isTriangleOp = 2 ∧
    isTriangleOp (syncOuterHead 96) = true ∧ isTriangleOp (syncInnerHead 96) = true ∧
    syncOuterPts 96 = arcPointsDeg (pcenter 96 : ℚ) (pcenter 96 : ℚ) (sradius 96 : ℚ) 45 315 ∧
    syncInnerPts 96 = arcPointsDeg (pcenter 96 : ℚ) (pcenter 96 : ℚ) (sinner 96 : ℚ) 225 585 ∧
    pcenter 96 = 48 ∧ sradius 96 = 28 ∧ sinner 96 = 16 := by
  refine ⟨rfl, ⟨arcAngles_strict_mono 45 315, by rfl⟩,
    ⟨arcAngles_strict_mono 225 585, by rfl⟩, ?_, rfl, rfl, rfl, rfl,
    pcenter_96, sradius_96, sinner_96⟩
  rw [create_sync_trace, List.countP_append, List.countP_append, List.countP_append]
  have hout : (syncOuterSegs 96).countP isTriangleOp = 0 := by
    rw [List.countP_eq_zero]
    intro op hop
    rw [syncOuterSegs] at hop
    obtain ⟨a, b, j, rfl⟩ := segList_mem hop
    simp [isTriangleOp]
  have hin : (syncInnerSegs 96).countP isTriangleOp = 0 := by
    rw [List.countP_eq_zero]
    intro op hop
    rw [syncInnerSegs] at hop
    obtain ⟨a, b, j, rfl⟩ := segList_mem hop
    simp [isTriangleOp]
  rw [hout, hin]
  simp [List.countP_cons, syncOuterHead, syncInnerHead, isTriangleOp]

/-! ## C3: the center pixel

The sync glyph never touches the canvas center: every arc segment stays
within the chord band of its circle (distance at least `r·cos 2.5°`
from the center — we use the crude bound `r·√3/2 > w/2`), and the
arrowheads stay within `head_size` of their ring.  The other three
composers all paint an opaque shape across the center. -/

theorem cos_deg_diff_ge_half {d : ℚ} (h : d = 5 ∨ d = -355) :
    (1 : ℝ) / 2 ≤ Real.cos ((d : ℝ) / 180 * Real.pi) := by
  have hbase : (1 : ℝ) / 2 ≤ Real.cos ((5 : ℝ) / 180 * Real.pi) := by
    have hpi := Real.pi_pos
    have h1 : (0 : ℝ) ≤ (5 : ℝ) / 180 * Real.pi := by positivity
    have h2 : Real.pi / 3 ≤ Real.pi := by linarith
    have h3 : (5 : ℝ) / 180 * Real.pi ≤ Real.pi / 3 := by linarith
    have := Real.cos_le_cos_of_nonneg_of_le_pi h1 h2 h3
    rw [Real.cos_pi_div_three] at this
    exact this
  rcases h with rfl | rfl
  · push_cast
    exact hbase
  · have harg : ((-355 : ℚ) : ℝ) / 180 * Real.pi =
        (5 : ℝ) / 180 * Real.pi - 2 * Real.pi := by
      push_cast
      ring
    rw [harg, Real.cos_sub_two_pi]
    exact hbase

theorem degAngle_val_sub (b a : ℚ) :
    (degAngle b).val - (degAngle a).val = ((b - a : ℚ) : ℝ) / 180 * Real.pi := by
  rw [degAngle_val, degAngle_val]
  push_cast
  ring

/-- A segment between two points of the circle of radius `r` about
`(cx, cy)`, whose polar angles differ by an angle of cosine at least
1/2, stays at squared distance at least `(3/4)·r²` from the center —
so a stroke thinner than that never covers the center pixel. -/
theorem not_inSeg_center {cx cy r w : ℚ} {α β : Angle}
    (hcos : (1 : ℝ) / 2 ≤ Real.cos (β.val - α.val))
    (hlt : ((w : ℝ) / 2) ^ 2 < 3 / 4 * (r : ℝ) ^ 2) :
    ¬ inSeg (polarP cx cy r α) (polarP cx cy r β) w ((cx : ℝ), (cy : ℝ)) := by
  rintro ⟨t, ht0, ht1, hd⟩
  rw [polarP_x_val, polarP_x_val, polarP_y_val, polarP_y_val] at hd
  have hform : ((cx : ℝ) - ((1 - t) * ((cx : ℝ) + (r : ℝ) * Real.cos α.val) +
        t * ((cx : ℝ) + (r : ℝ) * Real.cos β.val))) ^ 2 +
      ((cy : ℝ) - ((1 - t) * ((cy : ℝ) + (r : ℝ) * Real.sin α.val) +
        t * ((cy : ℝ) + (r : ℝ) * Real.sin β.val))) ^ 2 =
      (r : ℝ) ^ 2 * (((1 - t) * Real.cos α.val + t * Real.cos β.val) ^ 2 +
        ((1 - t) * Real.sin α.val + t * Real.sin β.val) ^ 2) := by
    ring
  rw [hform] at hd
  have hA := Real.sin_sq_add_cos_sq α.val
  have hB := Real.sin_sq_add_cos_sq β.val
  have hXY : ((1 - t) * Real.cos α.val + t * Real.cos β.val) ^ 2 +
      ((1 - t) * Real.sin α.val + t * Real.sin β.val) ^ 2 =
      (1 - t) ^ 2 + t ^ 2 +
        2 * (1 - t) * t * (Real.cos β.val * Real.cos α.val +
          Real.sin β.val * Real.sin α.val) := by
    linear_combination (1 - t) ^ 2 * hA + t ^ 2 * hB
  have hcs : Real.cos β.val * Real.cos α.val + Real.sin β.val * Real.sin α.val =
      Real.cos (β.val - α.val) := (Real.cos_sub β.val α.val).symm
  rw [hXY, hcs] at hd
  have h2t : (0 : ℝ) ≤ 2 * ((1 - t) * t) := by nlinarith
  have hprod := mul_le_mul_of_nonneg_left hcos h2t
  have hmin : (3 : ℝ) / 4 ≤ (1 - t) ^ 2 + t ^ 2 +
      2 * (1 - t) * t * Real.cos (β.val - α.val) := by
    nlinarith [sq_nonneg (t - 1 / 2)]
  have hr2 : (0 : ℝ) ≤ (r : ℝ) ^ 2 := sq_nonneg _
  nlinarith [mul_le_mul_of_nonneg_left hmin hr2]

/-- A triangle whose apex sits on the circle of radius `r` about
`(cx, cy)` and whose other two vertices are offset from the apex by at
most `|k| < |r|`, with `0 ≤ r`, never contains the center. -/
theorem not_inTri_apex_polar {cx cy r k : ℚ} {θ φ₁ φ₂ : Angle}
    (hpos : |(k : ℝ)| < (r : ℝ)) :
    ¬ inTri (polarP cx cy r θ) ((polarP cx cy r θ).addPolar k φ₁)
      ((polarP cx cy r θ).addPolar k φ₂) ((cx : ℝ), (cy : ℝ)) := by
  rintro ⟨l₁, l₂, l₃, h₁, h₂, h₃, hs, hx, hy⟩
  simp only [addPolar_x_val, addPolar_y_val, polarP_x_val, polarP_y_val] at hx hy
  have hpyth := Real.sin_sq_add_cos_sq θ.val
  have hd1 : ((r : ℝ) * Real.cos θ.val) * Real.cos θ.val +
      ((r : ℝ) * Real.sin θ.val) * Real.sin θ.val = (r : ℝ) := by
    linear_combination (r : ℝ) * hpyth
  have habs1 : |(k : ℝ) * (Real.cos φ₁.val * Real.cos θ.val +
      Real.sin φ₁.val * Real.sin θ.val)| ≤ |(k : ℝ)| := by
    rw [abs_mul]
    have hcs : Real.cos φ₁.val * Real.cos θ.val + Real.sin φ₁.val * Real.sin θ.val =
        Real.cos (φ₁.val - θ.val) := (Real.cos_sub φ₁.val θ.val).symm
    rw [hcs]
    exact mul_le_of_le_one_right (abs_nonneg _) (Real.abs_cos_le_one _)
  have habs2 : |(k : ℝ) * (Real.cos φ₂.val * Real.cos θ.val +
      Real.sin φ₂.val * Real.sin θ.val)| ≤ |(k : ℝ)| := by
    rw [abs_mul]
    have hcs : Real.cos φ₂.val * Real.cos θ.val + Real.sin φ₂.val * Real.sin θ.val =
        Real.cos (φ₂.val - θ.val) := (Real.cos_sub φ₂.val θ.val).symm
    rw [hcs]
    exact mul_le_of_le_one_right (abs_nonneg _) (Real.abs_cos_le_one _)
  have hlow1 := (abs_le.mp habs1).1
  have hlow2 := (abs_le.mp habs2).1
  -- project the convex identity onto the apex direction
  have hproj : l₁ * (((r : ℝ) * Real.cos θ.val) * Real.cos θ.val +
        ((r : ℝ) * Real.sin θ.val) * Real.sin θ.val) +
      l₂ * ((((r : ℝ) * Real.cos θ.val + (k : ℝ) * Real.cos φ₁.val) * Real.cos θ.val) +
        (((r : ℝ) * Real.sin θ.val + (k : ℝ) * Real.sin φ₁.val) * Real.sin θ.val)) +
      l₃ * ((((r : ℝ) * Real.cos θ.val + (k : ℝ) * Real.cos φ₂.val) * Real.cos θ.val) +
        (((r : ℝ) * Real.sin θ.val + (k : ℝ) * Real.sin φ₂.val) * Real.sin θ.val)) = 0 := by
    linear_combination (-(Real.cos θ.val)) * hx + (-(Real.sin θ.val)) * hy -
      ((cx : ℝ) * Real.cos θ.val + (cy : ℝ) * Real.sin θ.val) * hs
  have hm : (0 : ℝ) < (r : ℝ) - |(k : ℝ)| := by linarith
  have hD2 : (r : ℝ) - |(k : ℝ)| ≤
      (((r : ℝ) * Real.cos θ.val + (k : ℝ) * Real.cos φ₁.val) * Real.cos θ.val) +
        (((r : ℝ) * Real.sin θ.val + (k : ℝ) * Real.sin φ₁.val) * Real.sin θ.val) := by
    have hlin : (((r : ℝ) * Real.cos θ.val + (k : ℝ) * Real.cos φ₁.val) * Real.cos θ.val) +
        (((r : ℝ) * Real.sin θ.val + (k : ℝ) * Real.sin φ₁.val) * Real.sin θ.val) =
        (r : ℝ) + (k : ℝ) * (Real.cos φ₁.val * Real.cos θ.val +
          Real.sin φ₁.val * Real.sin θ.val) := by
      linear_combination (r : ℝ) * hpyth
    rw [hlin]
    linarith
  have hD3 : (r : ℝ) - |(k : ℝ)| ≤
      (((r : ℝ) * Real.cos θ.val + (k : ℝ) * Real.cos φ₂.val) * Real.cos θ.val) +
        (((r : ℝ) * Real.sin θ.val + (k : ℝ) * Real.sin φ₂.val) * Real.sin θ.val) := by
    have hlin : (((r : ℝ) * Real.cos θ.val + (k : ℝ) * Real.cos φ₂.val) * Real.cos θ.val) +
        (((r : ℝ) * Real.sin θ.val + (k : ℝ) * Real.sin φ₂.val) * Real.sin θ.val) =
        (r : ℝ) + (k : ℝ) * (Real.cos φ₂.val * Real.cos θ.val +
          Real.sin φ₂.val * Real.sin θ.val) := by
      linear_combination (r : ℝ) * hpyth
    rw [hlin]
    linarith
  have hD1 : (r : ℝ) - |(k : ℝ)| ≤ ((r : ℝ) * Real.cos θ.val) * Real.cos θ.val +
      ((r : ℝ) * Real.sin θ.val) * Real.sin θ.val := by
    rw [hd1]
    linarith [abs_nonneg ((k : ℝ))]
  have hge := convex3_ge h₁ h₂ h₃ hs hD1 hD2 hD3
  rw [hproj] at hge
  linarith

theorem segList_mem_chain {col : ℕ → Color} {w : ℚ} {R : P → P → Prop} :
    ∀ {pts : List P} {i : ℕ} {op : DrawOp}, List.Chain' R pts →
      op ∈ segList col w pts i → ∃ a b j, R a b ∧ op = DrawOp.line a b (col j) w := by
  intro pts
  induction pts with
  | nil =>
      intro i op hch h
      simp [segList] at h
  | cons a rest ih =>
      intro i op hch h
      cases rest with
      | nil => simp [segList] at h
      | cons b rest2 =>
          rw [segList] at h
          rcases List.mem_cons.mp h with rfl | h2
          · exact ⟨a, b, i, List.chain'_cons.mp hch |>.1, rfl⟩
          · exact ih (List.chain'_cons.mp hch).2 h2

theorem arcAngles_chain_diff (start stop : ℤ) :
    List.Chain' (fun a b => b = a + 5) (arcAngles start stop) := by
  rw [arcAngles, List.chain'_map]
  rcases ((stop - start) / 5).toNat with _ | n
  · simp
  · rw [List.chain'_range_succ]
    intro m hm
    push_cast
    ring

theorem normAngle_succ_diff (a : ℤ) :
    ((normAngle (a + 5) : ℤ) : ℚ) - ((normAngle a : ℤ) : ℚ) = 5 ∨
    ((normAngle (a + 5) : ℤ) : ℚ) - ((normAngle a : ℤ) : ℚ) = -355 := by
  have h : normAngle (a + 5) - normAngle a = 5 ∨ normAngle (a + 5) - normAngle a = -355 := by
    unfold normAngle
    split_ifs <;> omega
  rcases h with h | h
  · left
    have := congrArg (fun z : ℤ => (z : ℚ)) h
    push_cast at this
    linarith
  · right
    have := congrArg (fun z : ℤ => (z : ℚ)) h
    push_cast at this
    linarith

/-- No segment of either sync arc covers the canvas center. -/
theorem sync_arc_segs_miss (r w : ℚ) (start stop : ℤ)
    (hlt : ((w : ℝ) / 2) ^ 2 < 3 / 4 * (r : ℝ) ^ 2) (col : ℕ → Color) (i : ℕ) :
    ∀ op ∈ segList col w
      (arcPointsDeg (pcenter 96 : ℚ) (pcenter 96 : ℚ) r start stop) i,
      ¬ covers op (((pcenter 96 : ℚ) : ℝ), ((pcenter 96 : ℚ) : ℝ)) := by
  intro op hop
  have hchain : List.Chain' (fun p q : P =>
      ¬ inSeg p q w (((pcenter 96 : ℚ) : ℝ), ((pcenter 96 : ℚ) : ℝ)))
      (arcPointsDeg (pcenter 96 : ℚ) (pcenter 96 : ℚ) r start stop) := by
    rw [arcPointsDeg, List.chain'_map]
    refine (arcAngles_chain_diff start stop).imp ?_
    rintro a b rfl
    refine not_inSeg_center ?_ hlt
    rw [degAngle_val_sub]
    exact cos_deg_diff_ge_half (normAngle_succ_diff a)
  obtain ⟨p, q, j, hR, rfl⟩ := segList_mem_chain hchain hop
  exact hR

/-- No drawing operation of `create_sync_icon(96)` covers the canvas
center pixel: the arcs are rings of radii 28 and 16 around it and the
arrowheads stay within `head_size = 6` of those rings. -/
theorem sync_center_miss :
    ∀ op ∈ create_sync_trace 96,
      ¬ covers op (((pcenter 96 : ℚ) : ℝ), ((pcenter 96 : ℚ) : ℝ)) := by
  have harrow : arrow_width 96 = 4 := by decide
  have hhead : head_size 96 = 6 := by decide
  intro op hop
  rw [create_sync_trace] at hop
  rcases List.mem_append.mp hop with hop1 | hihead
  rcases List.mem_append.mp hop1 with hop2 | hinner
  rcases List.mem_append.mp hop2 with houter | hohead
  · rw [syncOuterSegs, syncOuterPts] at houter
    refine sync_arc_segs_miss _ _ _ _ ?_ _ _ op houter
    rw [harrow, sradius_96]
    norm_num
  · rw [List.mem_singleton] at hohead
    subst hohead
    rw [syncOuterHead]
    show ¬ inTri _ _ _ _
    refine not_inTri_apex_polar ?_
    rw [hhead, sradius_96]
    push_cast
    norm_num
  · rw [syncInnerSegs, syncInnerPts] at hinner
    refine sync_arc_segs_miss _ _ _ _ ?_ _ _ op hinner
    rw [harrow, sinner_96]
    norm_num
  · rw [List.mem_singleton] at hihead
    subst hihead
    rw [syncInnerHead]
    show ¬ inTri _ _ _ _
    refine not_inTri_apex_polar ?_
    rw [hhead, sinner_96]
    push_cast
    norm_num

theorem centerPx_eq (s : ℕ) :
    centerPx s = (((pcenter s : ℚ) : ℝ), ((pcenter s : ℚ) : ℝ)) := by
  simp [centerPx]

/-- The primary composer's solid background disk covers the center
opaquely, so after the whole trace the center is opaque. -/
theorem primary_center_opaque (s : ℕ) (fontOk : Bool) (tw th : ℤ) :
    ∀ a, FinalAlpha (create_fiber_trace s fontOk tw th) (centerPx s) a ↔ a = 255 := by
  rw [centerPx_eq]
  have hcov : covers
      (DrawOp.fillCircle (P.const (pcenter s : ℚ) (pcenter s : ℚ)) (pradius s : ℚ)
        primaryBlue)
      (((pcenter s : ℚ) : ℝ), ((pcenter s : ℚ) : ℝ)) := by
    simp only [covers, pconst_x_val, pconst_y_val]
    simp
    positivity
  have hsplit : create_fiber_trace s fontOk tw th =
      glowOps s ++
        DrawOp.fillCircle (P.const (pcenter s : ℚ) (pcenter s : ℚ)) (pradius s : ℚ)
          primaryBlue ::
        ([DrawOp.fillCircle (P.const (pcenter s : ℚ) (pcenter s : ℚ)) (pinner s : ℚ)
            secondaryBlue] ++
          (strandOffsets.map (strandOps s)).flatten ++
          [DrawOp.fillCircle (P.const (pcenter s : ℚ) (pcenter s : ℚ)) (node_radius s : ℚ)
            whiteC,
           DrawOp.strokeCircle (P.const (pcenter s : ℚ) (pcenter s : ℚ)) (node_radius s : ℚ)
            secondaryBlue ((max 1 (pyDiv (s : ℤ) 60) : ℤ) : ℚ)] ++
          dotOps s ++
          (if 128 ≤ s then (if fontOk then labelOps s tw th else crossOps s) else [])) := by
    simp [create_fiber_trace, List.append_assoc]
  rw [hsplit]
  exact finalAlpha_iff_opaque_hit hcov rfl

/-- The capture composer's inner lens (an opaque white disk at the
center) makes the center opaque. -/
theorem capture_center_opaque (s : ℕ) :
    ∀ a, FinalAlpha (create_capture_trace s) (centerPx s) a ↔ a = 255 := by
  rw [centerPx_eq]
  have hcov : covers
      (DrawOp.fillCircle (P.const (pcenter s : ℚ) (pcenter s : ℚ)) (inner_lens s : ℚ) whiteC)
      (((pcenter s : ℚ) : ℝ), ((pcenter s : ℚ) : ℝ)) := by
    simp only [covers, pconst_x_val, pconst_y_val]
    simp
    positivity
  have hsplit : create_capture_trace s =
      [DrawOp.fillRoundedRect (camera_x s : ℚ) (camera_y s : ℚ)
          ((camera_x s + camera_width s : ℤ) : ℚ) ((camera_y s + camera_height s : ℤ) : ℚ)
          ((pyDiv (s : ℤ) 20 : ℤ) : ℚ) primaryBlue,
       DrawOp.strokeRoundedRect (camera_x s : ℚ) (camera_y s : ℚ)
          ((camera_x s + camera_width s : ℤ) : ℚ) ((camera_y s + camera_height s : ℤ) : ℚ)
          ((pyDiv (s : ℤ) 20 : ℤ) : ℚ) whiteC 2,
       DrawOp.fillCircle (P.const (pcenter s : ℚ) (pcenter s : ℚ)) (lens_radius s : ℚ) grayC,
       DrawOp.strokeCircle (P.const (pcenter s : ℚ) (pcenter s : ℚ)) (lens_radius s : ℚ)
          whiteC 2] ++
      DrawOp.fillCircle (P.const (pcenter s : ℚ) (pcenter s : ℚ)) (inner_lens s : ℚ) whiteC ::
      [DrawOp.fillRoundedRect (vf_x s : ℚ) (vf_y s : ℚ)
          ((vf_x s + vf_width s : ℤ) : ℚ) ((vf_y s + vf_height s : ℤ) : ℚ)
          ((pyDiv (s : ℤ) 40 : ℤ) : ℚ) primaryBlue,
       DrawOp.strokeRoundedRect (vf_x s : ℚ) (vf_y s : ℚ)
          ((vf_x s + vf_width s : ℤ) : ℚ) ((vf_y s + vf_height s : ℤ) : ℚ)
          ((pyDiv (s : ℤ) 40 : ℤ) : ℚ) whiteC 1] := rfl
  rw [hsplit]
  exact finalAlpha_iff_opaque_hit hcov rfl

/-- The assignments composer's opaque white document sheet covers the
center (for sizes ≥ 32 the corner radius cannot reach the middle). -/
theorem assignments_center_opaque {s : ℕ} (hs : 32 ≤ s) :
    ∀ a, FinalAlpha (create_assignments_trace s) (centerPx s) a ↔ a = 255 := by
  rw [centerPx_eq]
  have hS : (32 : ℚ) ≤ (s : ℚ) := by exact_mod_cast hs
  have hs0 : (0 : ℚ) ≤ (s : ℚ) := by linarith
  have hdw1 : (doc_width s : ℚ) ≤ (s : ℚ) * (3 / 5) := pyInt_le _
  have hdw2 : (s : ℚ) * (3 / 5) < (doc_width s : ℚ) + 1 := lt_pyInt_add_one _
  have hdh1 : (doc_height s : ℚ) ≤ (s : ℚ) * (4 / 5) := pyInt_le _
  have hdh2 : (s : ℚ) * (4 / 5) < (doc_height s : ℚ) + 1 := lt_pyInt_add_one _
  have hdwZ : (0 : ℤ) ≤ doc_width s := pyInt_nonneg (by positivity)
  have hdhZ : (0 : ℤ) ≤ doc_height s := pyInt_nonneg (by positivity)
  have hhw1 : ((pyDiv (doc_width s) 2 : ℤ) : ℚ) ≤ (doc_width s : ℚ) / 2 :=
    pyDiv_cast_le _ (by norm_num)
  have hhw2 : (doc_width s : ℚ) / 2 < ((pyDiv (doc_width s) 2 : ℤ) : ℚ) + 1 :=
    lt_pyDiv_cast_add_one _ (by norm_num)
  have hhwZ : (0 : ℤ) ≤ pyDiv (doc_width s) 2 := pyDiv_nonneg hdwZ (by norm_num)
  have hhwle : pyDiv (doc_width s) 2 ≤ doc_width s := pyDiv_le_self hdwZ (by norm_num)
  have hhh1 : ((pyDiv (doc_height s) 2 : ℤ) : ℚ) ≤ (doc_height s : ℚ) / 2 :=
    pyDiv_cast_le _ (by norm_num)
  have hhh2 : (doc_height s : ℚ) / 2 < ((pyDiv (doc_height s) 2 : ℤ) : ℚ) + 1 :=
    lt_pyDiv_cast_add_one _ (by norm_num)
  have hhhZ : (0 : ℤ) ≤ pyDiv (doc_height s) 2 := pyDiv_nonneg hdhZ (by norm_num)
  have hhhle : pyDiv (doc_height s) 2 ≤ doc_height s := pyDiv_le_self hdhZ (by norm_num)
  have hrad1 : ((pyDiv (s : ℤ) 20 : ℤ) : ℚ) ≤ (s : ℚ) / 20 := by
    have := @pyDiv_cast_le (s : ℤ) 20 (by norm_num)
    push_cast at this
    linarith
  have hradZ : (0 : ℤ) ≤ pyDiv (s : ℤ) 20 :=
    pyDiv_nonneg (by exact_mod_cast Nat.zero_le s) (by norm_num)
  have hdx : (doc_x s : ℚ) = (pcenter s : ℚ) - ((pyDiv (doc_width s) 2 : ℤ) : ℚ) := by
    rw [doc_x]
    push_cast
    ring
  have hdy : (doc_y s : ℚ) = (pcenter s : ℚ) - ((pyDiv (doc_height s) 2 : ℤ) : ℚ) := by
    rw [doc_y]
    push_cast
    ring
  have hhwQ : (0 : ℚ) ≤ ((pyDiv (doc_width s) 2 : ℤ) : ℚ) := by exact_mod_cast hhwZ
  have hhhQ : (0 : ℚ) ≤ ((pyDiv (doc_height s) 2 : ℤ) : ℚ) := by exact_mod_cast hhhZ
  have hhwleQ : ((pyDiv (doc_width s) 2 : ℤ) : ℚ) ≤ (doc_width s : ℚ) := by
    exact_mod_cast hhwle
  have hhhleQ : ((pyDiv (doc_height s) 2 : ℤ) : ℚ) ≤ (doc_height s : ℚ) := by
    exact_mod_cast hhhle
  have hradQ : (0 : ℚ) ≤ ((pyDiv (s : ℤ) 20 : ℤ) : ℚ) := by exact_mod_cast hradZ
  have hcov : covers
      (DrawOp.fillRoundedRect (doc_x s : ℚ) (doc_y s : ℚ)
        ((doc_x s + doc_width s : ℤ) : ℚ) ((doc_y s + doc_height s : ℤ) : ℚ)
        ((pyDiv (s : ℤ) 20 : ℤ) : ℚ) whiteC)
      (((pcenter s : ℚ) : ℝ), ((pcenter s : ℚ) : ℝ)) := by
    have hq1 : (doc_x s : ℚ) ≤ (pcenter s : ℚ) := by rw [hdx]; linarith
    have hq2 : (pcenter s : ℚ) ≤ (doc_x s : ℚ) + (doc_width s : ℚ) := by
      rw [hdx]
      linarith
    have hq3 : (doc_y s : ℚ) ≤ (pcenter s : ℚ) := by rw [hdy]; linarith
    have hq4 : (pcenter s : ℚ) ≤ (doc_y s : ℚ) + (doc_height s : ℚ) := by
      rw [hdy]
      linarith
    have hq5 : (doc_x s : ℚ) + ((pyDiv (s : ℤ) 20 : ℤ) : ℚ) ≤ (pcenter s : ℚ) := by
      rw [hdx]
      linarith
    have hq6 : (pcenter s : ℚ) ≤
        (doc_x s : ℚ) + (doc_width s : ℚ) - ((pyDiv (s : ℤ) 20 : ℤ) : ℚ) := by
      rw [hdx]
      linarith
    simp only [covers, inRoundedRect, inRect]
    refine ⟨⟨?_, ?_, ?_, ?_⟩, Or.inl ⟨?_, ?_⟩⟩
    · show ((doc_x s : ℚ) : ℝ) ≤ ((pcenter s : ℚ) : ℝ)
      exact_mod_cast hq1
    · show ((pcenter s : ℚ) : ℝ) ≤ (((doc_x s + doc_width s : ℤ) : ℚ) : ℝ)
      exact_mod_cast hq2
    · show ((doc_y s : ℚ) : ℝ) ≤ ((pcenter s : ℚ) : ℝ)
      exact_mod_cast hq3
    · show ((pcenter s : ℚ) : ℝ) ≤ (((doc_y s + doc_height s : ℤ) : ℚ) : ℝ)
      exact_mod_cast hq4
    · show ((doc_x s : ℚ) : ℝ) + (((pyDiv (s : ℤ) 20 : ℤ) : ℚ) : ℝ) ≤
        ((pcenter s : ℚ) : ℝ)
      exact_mod_cast hq5
    · show ((pcenter s : ℚ) : ℝ) ≤
        (((doc_x s + doc_width s : ℤ) : ℚ) : ℝ) - (((pyDiv (s : ℤ) 20 : ℤ) : ℚ) : ℝ)
      exact_mod_cast hq6
  have hsplit : create_assignments_trace s =
      ([] : List DrawOp) ++
      DrawOp.fillRoundedRect (doc_x s : ℚ) (doc_y s : ℚ)
        ((doc_x s + doc_width s : ℤ) : ℚ) ((doc_y s + doc_height s : ℤ) : ℚ)
        ((pyDiv (s : ℤ) 20 : ℤ) : ℚ) whiteC ::
      (DrawOp.strokeRoundedRect (doc_x s : ℚ) (doc_y s : ℚ)
        ((doc_x s + doc_width s : ℤ) : ℚ) ((doc_y s + doc_height s : ℤ) : ℚ)
        ((pyDiv (s : ℤ) 20 : ℤ) : ℚ) primaryBlue 2 ::
        ((List.range 4).map (rowOps s)).flatten) := rfl
  rw [hsplit]
  exact finalAlpha_iff_opaque_hit hcov rfl

/-- C3 (corrected, counterexample): the Sync composer at its fixed size
96 draws nothing at the canvas center: the final center-pixel alpha is
0, not 255, refuting "every composer's center pixel is fully opaque". -/
theorem sync_center_pixel_transparent :
    FinalAlpha (create_sync_trace 96) (centerPx 96) 0 ∧
    ¬ FinalAlpha (create_sync_trace 96) (centerPx 96) 255 := by
  have hmiss : ∀ op ∈ create_sync_trace 96, ¬ covers op (centerPx 96) := by
    rw [centerPx_eq]
    exact sync_center_miss
  have hiff := finalAlpha_iff_all_miss hmiss
  refine ⟨(hiff 0).mpr rfl, fun h => ?_⟩
  have := (hiff 255).mp h
  norm_num at this

/-- C3 (amended): for every size ≥ 32 the Primary, Capture and
Assignments composers leave the canvas-center pixel fully opaque
(alpha 255); the Sync composer, at its fixed size 96, leaves the
center pixel fully transparent (alpha 0) — its glyph is a ring around
an empty middle. -/
theorem center_pixel_alpha (s : ℕ) (hs : 32 ≤ s) (fontOk : Bool) (tw th : ℤ) :
    (∀ a, FinalAlpha (create_fiber_trace s fontOk tw th) (centerPx s) a ↔ a = 255) ∧
    (∀ a, FinalAlpha (create_capture_trace s) (centerPx s) a ↔ a = 255) ∧
    (∀ a, FinalAlpha (create_assignments_trace s) (centerPx s) a ↔ a = 255) ∧
    (∀ a, FinalAlpha (create_sync_trace 96) (centerPx 96) a ↔ a = 0) := by
  refine ⟨ primary_center_opaque s fontOk tw th, capture_center_opaque s,
    assignments_center_opaque hs, ?_⟩
  refine finalAlpha_iff_all_miss ?_
  rw [centerPx_eq]
  exact sync_center_miss

/-- C3 witness: the concrete alphas at size 96. -/
theorem center_pixel_alpha_witness :
    FinalAlpha (create_fiber_trace 96 true 12 11) (centerPx 96) 255 ∧
    FinalAlpha (create_capture_trace 96) (centerPx 96) 255 ∧
    FinalAlpha (create_assignments_trace 96) (centerPx 96) 255 ∧
    FinalAlpha (create_sync_trace 96) (centerPx 96) 0 :=
  ⟨((center_pixel_alpha 96 (by norm_num) true 12 11).1 255).mpr rfl,
   ((center_pixel_alpha 96 (by norm_num) true 12 11).2.1 255).mpr rfl,
   ((center_pixel_alpha 96 (by norm_num) true 12 11).2.2.1 255).mpr rfl,
   ((center_pixel_alpha 96 (by norm_num) true 12 11).2.2.2 0).mpr rfl⟩

/-! ## C10: the corner pixels

Every operation each composer emits sits in a bounding square strictly
inside the canvas, so the four corner pixels are never covered and
keep alpha 0. -/

theorem const_pbox (q1 q2 : ℚ) : P.box (P.const q1 q2) = ⟨q1, q1, q2, q2⟩ := by
  simp [P.box, P.const, Coord.lo, Coord.hi, Coord.spread, Coord.const]

theorem polar_pbox (q1 q2 r : ℚ) (a : Angle) :
    P.box (polarP q1 q2 r a) = ⟨q1 - |r|, q1 + |r|, q2 - |r|, q2 + |r|⟩ := by
  simp [P.box, polarP, Coord.lo, Coord.hi, Coord.spread]

theorem addPolar_pbox (p : P) (k : ℚ) (a : Angle) :
    P.box (p.addPolar k a) =
      ⟨p.x.lo - |k|, p.x.hi + |k|, p.y.lo - |k|, p.y.hi + |k|⟩ := by
  simp only [P.box, P.addPolar, Coord.lo, Coord.hi, Coord.spread, List.map_append,
    List.sum_append, List.map_cons, List.sum_cons, List.map_nil, List.sum_nil,
    QBox.mk.injEq]
  refine ⟨by ring, by ring, by ring, by ring⟩

theorem within_mono {b : QBox} {q B B' : ℚ} (h : b.within q B) (hB : B ≤ B') :
    b.within q B' := by
  obtain ⟨h1, h2, h3, h4⟩ := h
  exact ⟨by linarith, by linarith, by linarith, by linarith⟩

theorem grow_within {b : QBox} {q B m : ℚ} (h : b.within q B) :
    (b.grow m).within q (B + m) := by
  obtain ⟨h1, h2, h3, h4⟩ := h
  simp only [QBox.grow, QBox.within]
  refine ⟨by linarith, by linarith, by linarith, by linarith⟩

theorem union_within {a b : QBox} {q B : ℚ} (ha : a.within q B) (hb : b.within q B) :
    (a.union b).within q B := by
  obtain ⟨a1, a2, a3, a4⟩ := ha
  obtain ⟨b1, b2, b3, b4⟩ := hb
  simp only [QBox.union, QBox.within]
  exact ⟨le_min a1 b1, max_le a2 b2, le_min a3 b3, max_le a4 b4⟩

theorem const_pbox_within (q : ℚ) : (P.box (P.const q q)).within q 0 := by
  rw [const_pbox]
  exact ⟨by linarith, by linarith, by linarith, by linarith⟩

theorem polar_pbox_within {q r R : ℚ} (h : |r| ≤ R) (a : Angle) :
    (P.box (polarP q q r a)).within q R := by
  rw [polar_pbox]
  have h1 : q - R ≤ q - |r| := by linarith
  have h2 : q + |r| ≤ q + R := by linarith
  exact ⟨h1, h2, h1, h2⟩

theorem const_pbox_within_of_le {q1 q2 c R : ℚ} (h1 : c - R ≤ q1) (h2 : q1 ≤ c + R)
    (h3 : c - R ≤ q2) (h4 : q2 ≤ c + R) : (P.box (P.const q1 q2)).within c R := by
  rw [const_pbox]
  exact ⟨h1, h2, h3, h4⟩

theorem segList_box_within {col : ℕ → Color} {w q R : ℚ} :
    ∀ {pts : List P} {i : ℕ}, (∀ p ∈ pts, (P.box p).within q R) →
      ∀ op ∈ segList col w pts i, op.box.within q (R + |w|) := by
  intro pts
  induction pts with
  | nil =>
      intro i hpts op hop
      simp [segList] at hop
  | cons a rest ih =>
      intro i hpts op hop
      cases rest with
      | nil => simp [segList] at hop
      | cons b rest2 =>
          rw [segList] at hop
          rcases List.mem_cons.mp hop with rfl | h2
          · show (((P.box a).union (P.box b)).grow |w|).within q (R + |w|)
            exact grow_within (union_within (hpts a (by simp))
              (hpts b (by simp)))
          · exact ih (fun p hp => hpts p (List.mem_cons_of_mem _ hp)) op h2

theorem arcPointsDeg_pbox_within {q r R : ℚ} (h : |r| ≤ R) (start stop : ℤ) :
    ∀ p ∈ arcPointsDeg q q r start stop, (P.box p).within q R := by
  intro p hp
  rw [arcPointsDeg] at hp
  obtain ⟨a, -, rfl⟩ := List.mem_map.mp hp
  exact polar_pbox_within h _

theorem pradius_cast_nonneg (s : ℕ) : (0 : ℚ) ≤ (pradius s : ℚ) := by
  have : (0 : ℤ) ≤ pradius s := pyInt_nonneg (by positivity)
  exact_mod_cast this

theorem pinner_le_pradius (s : ℕ) : (pinner s : ℚ) ≤ (pradius s : ℚ) := by
  have h1 : (pinner s : ℚ) ≤ (pradius s : ℚ) * (17 / 20) := pyInt_le _
  have h2 := pradius_cast_nonneg s
  linarith

theorem pinner_cast_nonneg (s : ℕ) : (0 : ℚ) ≤ (pinner s : ℚ) := by
  have : (0 : ℤ) ≤ pinner s := pyInt_nonneg (by
    have := pradius_cast_nonneg s
    positivity)
  exact_mod_cast this

theorem strandPts_pbox_within {s : ℕ} (offset : ℚ) :
    ∀ p ∈ strandPts s offset,
      (P.box p).within (pcenter s : ℚ) ((7 / 10) * (pinner s : ℚ)) := by
  intro p hp
  rw [strandPts, spiralPoints] at hp
  obtain ⟨t, ht, rfl⟩ := List.mem_map.mp hp
  obtain ⟨ht0, ht1⟩ := linspace_mem_bounds ht
  have hinQ : (0 : ℚ) ≤ (pinner s : ℚ) := pinner_cast_nonneg s
  refine polar_pbox_within ?_ _
  rw [abs_of_nonneg (by nlinarith)]
  nlinarith

theorem max_cast_le {k m : ℤ} {K M : ℚ} (hk : (k : ℚ) ≤ K) (hm : (m : ℚ) ≤ M)
    (hK : 0 ≤ K) (hM : 0 ≤ M) : ((max k m : ℤ) : ℚ) ≤ K + M := by
  rcases max_cases k m with ⟨h1, -⟩ | ⟨h1, -⟩ <;> rw [h1] <;> linarith

theorem pyDiv_nat_cast_le (s : ℕ) {d : ℤ} (hd : 0 < d) :
    ((pyDiv (s : ℤ) d : ℤ) : ℚ) ≤ (s : ℚ) / (d : ℚ) := by
  have := pyDiv_cast_le (s : ℤ) hd
  push_cast at this ⊢
  linarith

/-- Every operation of the primary trace stays inside the square of
half-side `2s/5 + s/30 + 2` about the canvas center. -/
theorem primary_ops_within (s : ℕ) (hs : 72 ≤ s) (fontOk : Bool) (tw th : ℤ)
    (htw0 : 0 ≤ tw) (htw1 : tw ≤ 24) (hth0 : 0 ≤ th) (hth1 : th ≤ 24) :
    ∀ op ∈ create_fiber_trace s fontOk tw th,
      op.box.within (pcenter s : ℚ) (2 / 5 * (s : ℚ) + (s : ℚ) / 30 + 2) := by
  have hS72 : (72 : ℚ) ≤ (s : ℚ) := by exact_mod_cast hs
  have hrad1 : (pradius s : ℚ) ≤ 2 / 5 * (s : ℚ) := by
    have := pyInt_le ((2 * (s : ℚ)) / 5)
    rw [pradius]
    linarith
  have hrad0 := pradius_cast_nonneg s
  have hradB : (pradius s : ℚ) ≤ 2 / 5 * (s : ℚ) + (s : ℚ) / 30 + 2 := by
    have h30 : (0 : ℚ) ≤ (s : ℚ) / 30 := by positivity
    linarith
  have hcable0 : (0 : ℚ) ≤ ((cable_width s : ℤ) : ℚ) := by
    have h0 : (0 : ℤ) ≤ cable_width s := le_trans (by norm_num) (le_max_left _ _)
    exact_mod_cast h0
  have hcable : ((cable_width s : ℤ) : ℚ) ≤ 2 + (s : ℚ) / 40 := by
    rw [cable_width]
    exact max_cast_le (by norm_num) (pyDiv_nat_cast_le s (by norm_num)) (by norm_num)
      (by positivity)
  intro op hop
  rw [create_fiber_trace] at hop
  rcases List.mem_append.mp hop with h5 | hbranch
  rcases List.mem_append.mp h5 with h4 | hdots
  rcases List.mem_append.mp h4 with h3 | hnodes
  rcases List.mem_append.mp h3 with h2 | hstr
  rcases List.mem_append.mp h2 with hglow | hmain
  · -- glow circles
    rw [glowOps] at hglow
    obtain ⟨j, hj, rfl⟩ := List.mem_map.mp hglow
    rw [List.mem_range] at hj
    have hradj0 : (0 : ℤ) ≤ pradius s - (j : ℤ) := by omega
    have hradj1 : pradius s - (j : ℤ) ≤ pradius s := by omega
    have habs : |((pradius s - (j : ℤ) : ℤ) : ℚ)| ≤ (pradius s : ℚ) := by
      rw [abs_of_nonneg (by exact_mod_cast hradj0)]
      exact_mod_cast hradj1
    show (((P.box (P.const _ _)).grow _)).within _ _
    refine within_mono (grow_within (const_pbox_within _)) ?_
    linarith
  · -- background and inner disks
    rcases List.mem_cons.mp hmain with rfl | hmain2
    · show (((P.box (P.const _ _)).grow _)).within _ _
      refine within_mono (grow_within (const_pbox_within _)) ?_
      rw [abs_of_nonneg hrad0]
      linarith
    rcases List.mem_cons.mp hmain2 with rfl | hmain3
    · show (((P.box (P.const _ _)).grow _)).within _ _
      refine within_mono (grow_within (const_pbox_within _)) ?_
      rw [abs_of_nonneg (pinner_cast_nonneg s)]
      have := pinner_le_pradius s
      linarith
    · cases hmain3
  · -- fiber strands
    obtain ⟨l, hl, hop2⟩ := List.mem_flatten.mp hstr
    obtain ⟨o, -, rfl⟩ := List.mem_map.mp hl
    rw [strandOps] at hop2
    have hw := segList_box_within (strandPts_pbox_within o) op hop2
    refine within_mono hw ?_
    rw [abs_of_nonneg hcable0]
    have hinner := pinner_le_pradius s
    have hinner0 := pinner_cast_nonneg s
    have h40 : (s : ℚ) / 40 ≤ (s : ℚ) / 30 := by
      rw [div_le_div_iff₀ (by norm_num) (by norm_num)]
      linarith
    nlinarith
  · -- central node (fill + stroke)
    have hnode0 : (0 : ℚ) ≤ (node_radius s : ℚ) := by
      have : (0 : ℤ) ≤ node_radius s := pyInt_nonneg (by positivity)
      exact_mod_cast this
    have hnode1 : (node_radius s : ℚ) ≤ (pradius s : ℚ) * (1 / 5) := pyInt_le _
    rcases List.mem_cons.mp hnodes with rfl | hn2
    · show (((P.box (P.const _ _)).grow _)).within _ _
      refine within_mono (grow_within (const_pbox_within _)) ?_
      rw [abs_of_nonneg hnode0]
      linarith
    rcases List.mem_cons.mp hn2 with rfl | hn3
    · show (((P.box (P.const _ _)).grow _)).within _ _
      refine within_mono (grow_within (const_pbox_within _)) ?_
      have hw1 : ((max 1 (pyDiv (s : ℤ) 60) : ℤ) : ℚ) ≤ 1 + (s : ℚ) / 60 :=
        max_cast_le (by norm_num) (pyDiv_nat_cast_le s (by norm_num)) (by norm_num)
          (by positivity)
      have hw0 : (0 : ℚ) ≤ ((max 1 (pyDiv (s : ℤ) 60) : ℤ) : ℚ) := by
        have h0 : (0 : ℤ) ≤ max 1 (pyDiv (s : ℤ) 60) :=
          le_trans (by norm_num) (le_max_left _ _)
        exact_mod_cast h0
      rw [abs_of_nonneg hnode0, abs_of_nonneg hw0]
      have h60 : (s : ℚ) / 60 ≤ (s : ℚ) / 30 := by
        rw [div_le_div_iff₀ (by norm_num) (by norm_num)]
        linarith
      linarith
    · cases hn3
  · -- connector dots
    have hpr0 : (0 : ℚ) ≤ (point_radius s : ℚ) := by
      have : (0 : ℤ) ≤ point_radius s := pyInt_nonneg (by positivity)
      exact_mod_cast this
    have hpr1 : (point_radius s : ℚ) ≤ (pradius s : ℚ) * (13 / 20) := pyInt_le _
    have hps0 : (0 : ℚ) ≤ (point_size s : ℚ) := by
      have : (0 : ℤ) ≤ point_size s := pyInt_nonneg (by positivity)
      exact_mod_cast this
    have hps1 : (point_size s : ℚ) ≤ (pradius s : ℚ) * (2 / 25) := pyInt_le _
    rw [dotOps] at hdots
    obtain ⟨l, hl, hop2⟩ := List.mem_flatten.mp hdots
    obtain ⟨a, -, rfl⟩ := List.mem_map.mp hl
    rcases List.mem_cons.mp hop2 with rfl | hop3
    · show (((P.box (polarP _ _ _ _)).grow _)).within _ _
      refine within_mono (grow_within (polar_pbox_within (le_refl _) _)) ?_
      rw [abs_of_nonneg hpr0, abs_of_nonneg hps0]
      linarith
    rcases List.mem_cons.mp hop3 with rfl | hop4
    · show (((P.box (polarP _ _ _ _)).grow _)).within _ _
      refine within_mono (grow_within (polar_pbox_within (le_refl _) _)) ?_
      have hw1 : ((max 1 (pyDiv (s : ℤ) 80) : ℤ) : ℚ) ≤ 1 + (s : ℚ) / 80 :=
        max_cast_le (by norm_num) (pyDiv_nat_cast_le s (by norm_num)) (by norm_num)
          (by positivity)
      have hw0 : (0 : ℚ) ≤ ((max 1 (pyDiv (s : ℤ) 80) : ℤ) : ℚ) := by
        have h0 : (0 : ℤ) ≤ max 1 (pyDiv (s : ℤ) 80) :=
          le_trans (by norm_num) (le_max_left _ _)
        exact_mod_cast h0
      rw [abs_of_nonneg hpr0, abs_of_nonneg hps0, abs_of_nonneg hw0]
      have h80 : (s : ℚ) / 80 ≤ (s : ℚ) / 30 := by
        rw [div_le_div_iff₀ (by norm_num) (by norm_num)]
        linarith
      nlinarith
    · cases hop4
  · -- the size-gated label / cross branch
    by_cases h128 : 128 ≤ s
    · rw [if_pos h128] at hbranch
      have hBge : (25 : ℚ) ≤ 2 / 5 * (s : ℚ) + (s : ℚ) / 30 + 2 := by
        have : (128 : ℚ) ≤ (s : ℚ) := by exact_mod_cast h128
        nlinarith
      by_cases hfont : fontOk
      · rw [if_pos hfont] at hbranch
        have hhwZ : (0 : ℤ) ≤ pyDiv tw 2 := pyDiv_nonneg htw0 (by norm_num)
        have hhwle : pyDiv tw 2 ≤ tw := pyDiv_le_self htw0 (by norm_num)
        have hhhZ : (0 : ℤ) ≤ pyDiv th 2 := pyDiv_nonneg hth0 (by norm_num)
        have hhhle : pyDiv th 2 ≤ th := pyDiv_le_self hth0 (by norm_num)
        have hq : ∀ c₀ : ℤ, 0 ≤ c₀ → c₀ ≤ 1 →
            (QBox.mk ((pcenter s - pyDiv tw 2 + c₀ : ℤ) : ℚ)
              (((pcenter s - pyDiv tw 2 + c₀ : ℤ) : ℚ) + (tw : ℚ))
              ((pcenter s - pyDiv th 2 + c₀ : ℤ) : ℚ)
              (((pcenter s - pyDiv th 2 + c₀ : ℤ) : ℚ) + (th : ℚ))).within
              (pcenter s : ℚ) (2 / 5 * (s : ℚ) + (s : ℚ) / 30 + 2) := by
          intro c₀ hc0 hc1
          have e1 : ((pcenter s - pyDiv tw 2 + c₀ : ℤ) : ℚ) =
              (pcenter s : ℚ) - ((pyDiv tw 2 : ℤ) : ℚ) + (c₀ : ℚ) := by push_cast; ring
          have e2 : ((pcenter s - pyDiv th 2 + c₀ : ℤ) : ℚ) =
              (pcenter s : ℚ) - ((pyDiv th 2 : ℤ) : ℚ) + (c₀ : ℚ) := by push_cast; ring
          have b1 : (0 : ℚ) ≤ ((pyDiv tw 2 : ℤ) : ℚ) := by exact_mod_cast hhwZ
          have b2 : ((pyDiv tw 2 : ℤ) : ℚ) ≤ (tw : ℚ) := by exact_mod_cast hhwle
          have b3 : (0 : ℚ) ≤ ((pyDiv th 2 : ℤ) : ℚ) := by exact_mod_cast hhhZ
          have b4 : ((pyDiv th 2 : ℤ) : ℚ) ≤ (th : ℚ) := by exact_mod_cast hhhle
          have btw : (tw : ℚ) ≤ 24 := by exact_mod_cast htw1
          have bth : (th : ℚ) ≤ 24 := by exact_mod_cast hth1
          have bc0 : (0 : ℚ) ≤ (c₀ : ℚ) := by exact_mod_cast hc0
          have bc1 : (c₀ : ℚ) ≤ 1 := by exact_mod_cast hc1
          rw [QBox.within, e1, e2]
          refine ⟨by linarith, by linarith, by linarith, by linarith⟩
        rcases List.mem_cons.mp hbranch with rfl | hb2
        · exact hq 1 (by norm_num) (by norm_num)
        rcases List.mem_cons.mp hb2 with rfl | hb3
        · have h0 := hq 0 le_rfl zero_le_one
          rw [add_zero, add_zero] at h0
          exact h0
        · cases hb3
      · rw [if_neg hfont] at hbranch
        have hll0 : (0 : ℚ) ≤ (line_length s : ℚ) := by
          have : (0 : ℤ) ≤ line_length s := pyInt_nonneg (by positivity)
          exact_mod_cast this
        have hll1 : (line_length s : ℚ) ≤ (pradius s : ℚ) * (3 / 10) := pyInt_le _
        have hcw1 : ((max 2 (pyDiv (s : ℤ) 30) : ℤ) : ℚ) ≤ 2 + (s : ℚ) / 30 :=
          max_cast_le (by norm_num) (pyDiv_nat_cast_le s (by norm_num)) (by norm_num)
            (by positivity)
        have hcw0 : (0 : ℚ) ≤ ((max 2 (pyDiv (s : ℤ) 30) : ℤ) : ℚ) := by
          have h0 : (0 : ℤ) ≤ max 2 (pyDiv (s : ℤ) 30) :=
            le_trans (by norm_num) (le_max_left _ _)
          exact_mod_cast h0
        have hwline : ∀ p q : P, (P.box p).within (pcenter s : ℚ) (line_length s : ℚ) →
            (P.box q).within (pcenter s : ℚ) (line_length s : ℚ) →
            ((DrawOp.line p q whiteC
              ((max 2 (pyDiv (s : ℤ) 30) : ℤ) : ℚ)).box).within (pcenter s : ℚ)
              (2 / 5 * (s : ℚ) + (s : ℚ) / 30 + 2) := by
          intro p q hp hq
          show ((((P.box p).union (P.box q)).grow _)).within _ _
          refine within_mono (grow_within (union_within hp hq)) ?_
          rw [abs_of_nonneg hcw0]
          linarith
        have hboxA : (P.box (P.const ((pcenter s - line_length s : ℤ) : ℚ)
            (pcenter s : ℚ))).within (pcenter s : ℚ) (line_length s : ℚ) :=
          const_pbox_within_of_le (by push_cast; linarith) (by push_cast; linarith)
            (by linarith) (by linarith)
        have hboxB : (P.box (P.const ((pcenter s + line_length s : ℤ) : ℚ)
            (pcenter s : ℚ))).within (pcenter s : ℚ) (line_length s : ℚ) :=
          const_pbox_within_of_le (by push_cast; linarith) (by push_cast; linarith)
            (by linarith) (by linarith)
        have hboxC : (P.box (P.const (pcenter s : ℚ)
            ((pcenter s - line_length s : ℤ) : ℚ))).within (pcenter s : ℚ)
            (line_length s : ℚ) :=
          const_pbox_within_of_le (by linarith) (by linarith)
            (by push_cast; linarith) (by push_cast; linarith)
        have hboxD : (P.box (P.const (pcenter s : ℚ)
            ((pcenter s + line_length s : ℤ) : ℚ))).within (pcenter s : ℚ)
            (line_length s : ℚ) :=
          const_pbox_within_of_le (by linarith) (by linarith)
            (by push_cast; linarith) (by push_cast; linarith)
        rcases List.mem_cons.mp hbranch with rfl | hb2
        · exact hwline _ _ hboxA hboxB
        rcases List.mem_cons.mp hb2 with rfl | hb3
        · exact hwline _ _ hboxC hboxD
        · cases hb3
    · rw [if_neg h128] at hbranch
      cases hbranch

theorem addPolar_pbox_within {p : P} {c R : ℚ} (h : (P.box p).within c R)
    (k : ℚ) (a : Angle) : (P.box (p.addPolar k a)).within c (R + |k|) := by
  have h1 : c - R ≤ p.x.lo := h.1
  have h2 : p.x.hi ≤ c + R := h.2.1
  have h3 : c - R ≤ p.y.lo := h.2.2.1
  have h4 : p.y.hi ≤ c + R := h.2.2.2
  have g1 : c - (R + |k|) ≤ p.x.lo - |k| := by linarith
  have g2 : p.x.hi + |k| ≤ c + (R + |k|) := by linarith
  have g3 : c - (R + |k|) ≤ p.y.lo - |k| := by linarith
  have g4 : p.y.hi + |k| ≤ c + (R + |k|) := by linarith
  rw [addPolar_pbox]
  exact ⟨g1, g2, g3, g4⟩

/-! Concrete layout values at the fixed shortcut size 96. -/

theorem camera_width_96 : camera_width 96 = 67 := by
  rw [camera_width]; exact pyInt_eq (by norm_num) (by norm_num)

theorem camera_height_96 : camera_height 96 = 48 := by
  rw [camera_height]; exact pyInt_eq (by norm_num) (by norm_num)

theorem camera_x_96 : camera_x 96 = 15 := by
  rw [camera_x, camera_width_96, pcenter_96]; decide

theorem camera_y_96 : camera_y 96 = 24 := by
  rw [camera_y, camera_height_96, pcenter_96]; decide

theorem lens_radius_96 : lens_radius 96 = 14 := by
  rw [lens_radius]; exact pyInt_eq (by norm_num) (by norm_num)

theorem inner_lens_96 : inner_lens 96 = 8 := by
  rw [inner_lens, lens_radius_96]; exact pyInt_eq (by norm_num) (by norm_num)

theorem vf_width_96 : vf_width 96 = 19 := by
  rw [vf_width]; exact pyInt_eq (by norm_num) (by norm_num)

theorem vf_height_96 : vf_height 96 = 9 := by
  rw [vf_height]; exact pyInt_eq (by norm_num) (by norm_num)

theorem vf_x_96 : vf_x 96 = 39 := by
  rw [vf_x, vf_width_96, pcenter_96]; decide

theorem vf_y_96 : vf_y 96 = 11 := by
  rw [vf_y, camera_y_96, vf_height_96]
  have h4 : pyInt (((96 : ℕ) : ℚ) * (1 / 20)) = 4 := pyInt_eq (by norm_num) (by norm_num)
  rw [h4]
  decide

theorem doc_width_96 : doc_width 96 = 57 := by
  rw [doc_width]; exact pyInt_eq (by norm_num) (by norm_num)

theorem doc_height_96 : doc_height 96 = 76 := by
  rw [doc_height]; exact pyInt_eq (by norm_num) (by norm_num)

theorem doc_x_96 : doc_x 96 = 20 := by
  rw [doc_x, doc_width_96, pcenter_96]; decide

theorem doc_y_96 : doc_y 96 = 10 := by
  rw [doc_y, doc_height_96, pcenter_96]; decide

theorem item_height_96 : item_height 96 = 12 := by
  rw [item_height, doc_height_96]; decide

theorem item_margin_96 : item_margin 96 = 3 := by decide

theorem checkbox_size_96 : checkbox_size 96 = 4 := by decide

theorem checkbox_x_96 : checkbox_x 96 = 23 := by
  rw [checkbox_x, doc_x_96, item_margin_96]
  decide

theorem item_y_96 (i : ℕ) : item_y 96 i = 13 + 15 * (i : ℤ) := by
  rw [item_y, doc_y_96, item_margin_96, item_height_96]
  ring

theorem checkbox_y_96 (i : ℕ) : checkbox_y 96 i = 17 + 15 * (i : ℤ) := by
  rw [checkbox_y, item_y_96, item_height_96, checkbox_size_96]
  have h8 : pyDiv (12 - 4 : ℤ) 2 = 4 := by decide
  rw [h8]
  ring

theorem arrow_width_96 : arrow_width 96 = 4 := by decide

theorem head_size_96 : head_size 96 = 6 := by decide

/-- Every operation of the 96-px capture trace stays inside the square
of half-side 40 about the canvas center. -/
theorem capture_ops_within :
    ∀ op ∈ create_capture_trace 96, op.box.within (pcenter 96 : ℚ) 40 := by
  have hpy20 : pyDiv ((96 : ℕ) : ℤ) 20 = 4 := by decide
  have hpy40 : pyDiv ((96 : ℕ) : ℤ) 40 = 2 := by decide
  intro op hop
  simp only [create_capture_trace, List.mem_cons, List.not_mem_nil, or_false] at hop
  rcases hop with rfl | rfl | rfl | rfl | rfl | rfl | rfl <;>
    simp only [DrawOp.box, rectBox, QBox.grow, QBox.union, QBox.within, const_pbox,
      camera_x_96, camera_y_96, camera_width_96, camera_height_96, pcenter_96,
      lens_radius_96, inner_lens_96, vf_x_96, vf_y_96, vf_width_96, vf_height_96,
      hpy20, hpy40] <;>
    norm_num

/-- Every operation of the 96-px assignments trace stays inside the
square of half-side 40 about the canvas center. -/
theorem assignments_ops_within :
    ∀ op ∈ create_assignments_trace 96, op.box.within (pcenter 96 : ℚ) 40 := by
  have hpy20 : pyDiv ((96 : ℕ) : ℤ) 20 = 4 := by decide
  have hpy12 : pyDiv (12 : ℤ) 2 = 6 := by decide
  have hm60 : (max 1 (pyDiv ((96 : ℕ) : ℤ) 60) : ℤ) = 1 := by decide
  have hpy60 : pyDiv (96 : ℤ) 60 = 1 := by decide
  intro op hop
  rw [create_assignments_trace] at hop
  rcases List.mem_append.mp hop with hdoc | hrows
  · simp only [List.mem_cons, List.not_mem_nil, or_false] at hdoc
    rcases hdoc with rfl | rfl <;>
      simp only [DrawOp.box, rectBox, QBox.grow, QBox.within, doc_x_96, doc_y_96,
        doc_width_96, doc_height_96, pcenter_96, hpy20] <;>
      norm_num
  · obtain ⟨l, hl, hop2⟩ := List.mem_flatten.mp hrows
    obtain ⟨i, hi, rfl⟩ := List.mem_map.mp hl
    rw [List.mem_range] at hi
    interval_cases i
    · simp [rowOps] at hop2
      rcases hop2 with rfl | rfl | rfl | rfl | rfl <;>
        simp only [DrawOp.box, rectBox, QBox.grow, QBox.union, QBox.within, const_pbox,
          checkbox_x_96, checkbox_y_96, checkbox_size_96, item_y_96, item_height_96,
          item_margin_96, doc_width_96, pcenter_96, hpy12, hm60, hpy60] <;>
        norm_num [le_min_iff, max_le_iff, min_le_iff, le_max_iff]
    · simp [rowOps] at hop2
      rcases hop2 with rfl | rfl | rfl | rfl | rfl <;>
        simp only [DrawOp.box, rectBox, QBox.grow, QBox.union, QBox.within, const_pbox,
          checkbox_x_96, checkbox_y_96, checkbox_size_96, item_y_96, item_height_96,
          item_margin_96, doc_width_96, pcenter_96, hpy12, hm60, hpy60] <;>
        norm_num [le_min_iff, max_le_iff, min_le_iff, le_max_iff]
    · simp [rowOps] at hop2
      rcases hop2 with rfl | rfl | rfl <;>
        simp only [DrawOp.box, rectBox, QBox.grow, QBox.union, QBox.within, const_pbox,
          checkbox_x_96, checkbox_y_96, checkbox_size_96, item_y_96, item_height_96,
          item_margin_96, doc_width_96, pcenter_96, hpy12, hm60, hpy60] <;>
        norm_num [le_min_iff, max_le_iff, min_le_iff, le_max_iff]
    · simp [rowOps] at hop2
      rcases hop2 with rfl | rfl | rfl <;>
        simp only [DrawOp.box, rectBox, QBox.grow, QBox.union, QBox.within, const_pbox,
          checkbox_x_96, checkbox_y_96, checkbox_size_96, item_y_96, item_height_96,
          item_margin_96, doc_width_96, pcenter_96, hpy12, hm60, hpy60] <;>
        norm_num [le_min_iff, max_le_iff, min_le_iff, le_max_iff]

/-- Every operation of the 96-px sync trace stays inside the square of
half-side 40 about the canvas center. -/
theorem sync_ops_within :
    ∀ op ∈ create_sync_trace 96, op.box.within (pcenter 96 : ℚ) 40 := by
  have hsr : |((sradius 96 : ℤ) : ℚ)| ≤ 28 := by rw [sradius_96]; norm_num
  have hsi : |((sinner 96 : ℤ) : ℚ)| ≤ 28 := by rw [sinner_96]; norm_num
  have haw : |((arrow_width 96 : ℤ) : ℚ)| ≤ 4 := by rw [arrow_width_96]; norm_num
  have hhsn : |(-((head_size 96 : ℤ) : ℚ))| ≤ 6 := by rw [head_size_96]; norm_num
  have hhsp : |((head_size 96 : ℤ) : ℚ)| ≤ 6 := by rw [head_size_96]; norm_num
  intro op hop
  rw [create_sync_trace] at hop
  rcases List.mem_append.mp hop with h3 | hih
  rcases List.mem_append.mp h3 with h2 | hisegs
  rcases List.mem_append.mp h2 with hosegs | hoh
  · rw [syncOuterSegs, syncOuterPts] at hosegs
    have h := segList_box_within (arcPointsDeg_pbox_within hsr 45 315) op hosegs
    exact within_mono h (by linarith)
  · rw [List.mem_singleton] at hoh
    subst hoh
    rw [syncOuterHead]
    have hapex : (P.box (syncOuterApex 96)).within (pcenter 96 : ℚ) 28 := by
      rw [syncOuterApex]
      exact polar_pbox_within hsr _
    have hb : ∀ a : Angle, (P.box ((syncOuterApex 96).addPolar
        (-((head_size 96 : ℤ) : ℚ)) a)).within (pcenter 96 : ℚ) 34 := by
      intro a
      exact within_mono (addPolar_pbox_within hapex _ a) (by linarith)
    show (((P.box (syncOuterApex 96)).union _).union _).within _ _
    exact within_mono
      (union_within (union_within (within_mono hapex (by norm_num)) (hb _)) (hb _))
      (by norm_num)
  · rw [syncInnerSegs, syncInnerPts] at hisegs
    have h := segList_box_within (arcPointsDeg_pbox_within hsi 225 585) op hisegs
    exact within_mono h (by linarith)
  · rw [List.mem_singleton] at hih
    subst hih
    rw [syncInnerHead]
    have hapex : (P.box (syncInnerApex 96)).within (pcenter 96 : ℚ) 28 := by
      rw [syncInnerApex]
      exact polar_pbox_within hsi _
    have hb : ∀ a : Angle, (P.box ((syncInnerApex 96).addPolar
        ((head_size 96 : ℤ) : ℚ) a)).within (pcenter 96 : ℚ) 34 := by
      intro a
      exact within_mono (addPolar_pbox_within hapex _ a) (by linarith)
    show (((P.box (syncInnerApex 96)).union _).union _).within _ _
    exact within_mono
      (union_within (union_within (within_mono hapex (by norm_num)) (hb _)) (hb _))
      (by norm_num)

/-- C10: for every size in the SizeMatrix every operation of the
primary composer misses the four corner pixels, and so do all
operations of the three shortcut composers at their fixed size 96, so
each corner pixel's final alpha is exactly 0.  The measured text box
`tw × th` of the size-gated label is assumed at most 24 px each way,
which holds for the default bitmap font's two-letter label. -/
theorem corner_pixels_transparent (s : ℕ) (hs : s ∈ sizeMatrix) (fontOk : Bool)
    (tw th : ℤ) (htw0 : 0 ≤ tw) (htw1 : tw ≤ 24) (hth0 : 0 ≤ th) (hth1 : th ≤ 24) :
    (∀ q ∈ cornersQ s, ∀ a,
        FinalAlpha (create_fiber_trace s fontOk tw th) (cornerPx q) a ↔ a = 0) ∧
    (∀ q ∈ cornersQ 96, ∀ a,
        (FinalAlpha (create_capture_trace 96) (cornerPx q) a ↔ a = 0) ∧
        (FinalAlpha (create_assignments_trace 96) (cornerPx q) a ↔ a = 0) ∧
        (FinalAlpha (create_sync_trace 96) (cornerPx q) a ↔ a = 0)) := by
  have h72 : 72 ≤ s := by
    rw [sizeMatrix] at hs
    fin_cases hs <;> norm_num
  have hS : (72 : ℚ) ≤ (s : ℚ) := by exact_mod_cast h72
  have hcc1 : ((pcenter s : ℤ) : ℚ) ≤ (s : ℚ) / 2 := by
    rw [pcenter]
    have h := pyDiv_nat_cast_le s (show (0 : ℤ) < 2 by norm_num)
    push_cast at h ⊢
    linarith
  have hcc2 : (s : ℚ) / 2 < ((pcenter s : ℤ) : ℚ) + 1 := by
    rw [pcenter]
    have h := lt_pyDiv_cast_add_one ((s : ℕ) : ℤ) (show (0 : ℤ) < 2 by norm_num)
    push_cast at h ⊢
    linarith
  have hlo : (0 : ℚ) < (pcenter s : ℚ) - (2 / 5 * (s : ℚ) + (s : ℚ) / 30 + 2) := by
    linarith
  have hhi : (pcenter s : ℚ) + (2 / 5 * (s : ℚ) + (s : ℚ) / 30 + 2) < (s : ℚ) - 1 := by
    linarith
  refine ⟨?_, ?_⟩
  · intro q hq a
    refine finalAlpha_iff_all_miss ?_ a
    intro op hop
    have hw := primary_ops_within s h72 fontOk tw th htw0 htw1 hth0 hth1 op hop
    simp only [cornersQ, List.mem_cons, List.not_mem_nil, or_false] at hq
    rcases hq with rfl | rfl | rfl | rfl
    · show ¬ covers op (((0 : ℚ) : ℝ), ((0 : ℚ) : ℝ))
      exact not_covers_of_within hw (Or.inl (by linarith))
    · show ¬ covers op ((((s : ℚ) - 1 : ℚ) : ℝ), ((0 : ℚ) : ℝ))
      exact not_covers_of_within hw (Or.inr (Or.inl (by linarith)))
    · show ¬ covers op (((0 : ℚ) : ℝ), (((s : ℚ) - 1 : ℚ) : ℝ))
      exact not_covers_of_within hw (Or.inl (by linarith))
    · show ¬ covers op ((((s : ℚ) - 1 : ℚ) : ℝ), (((s : ℚ) - 1 : ℚ) : ℝ))
      exact not_covers_of_within hw (Or.inr (Or.inl (by linarith)))
  · intro q hq a
    have hc96 : ((pcenter 96 : ℤ) : ℚ) = 48 := by rw [pcenter_96]; norm_num
    simp only [cornersQ, List.mem_cons, List.not_mem_nil, or_false] at hq
    have hfar : q.1 < (pcenter 96 : ℚ) - 40 ∨ (pcenter 96 : ℚ) + 40 < q.1 ∨
        q.2 < (pcenter 96 : ℚ) - 40 ∨ (pcenter 96 : ℚ) + 40 < q.2 := by
      rcases hq with rfl | rfl | rfl | rfl
      · exact Or.inl (by rw [hc96]; norm_num)
      · exact Or.inr (Or.inl (by rw [hc96]; norm_num))
      · exact Or.inl (by rw [hc96]; norm_num)
      · exact Or.inr (Or.inl (by rw [hc96]; norm_num))
    refine ⟨finalAlpha_iff_all_miss ?_ a, finalAlpha_iff_all_miss ?_ a,
      finalAlpha_iff_all_miss ?_ a⟩ <;> intro op hop
    · exact not_covers_of_within (capture_ops_within op hop) hfar
    · exact not_covers_of_within (assignments_ops_within op hop) hfar
    · exact not_covers_of_within (sync_ops_within op hop) hfar

/-- C10 witness: the top-left corner pixel at size 96 has final alpha 0
for the primary trace and for the sync trace. -/
theorem corner_pixels_transparent_witness :
    (FinalAlpha (create_fiber_trace 96 true 12 11) (cornerPx (0, 0)) 0 ↔ (0 : ℚ) = 0) ∧
    (FinalAlpha (create_sync_trace 96) (cornerPx (0, 0)) 0 ↔ (0 : ℚ) = 0) :=
  ⟨(corner_pixels_transparent 96 (by decide) true 12 11 (by norm_num)
      (by norm_num) (by norm_num) (by norm_num)).1 (0, 0) (by simp [cornersQ]) 0,
   ((corner_pixels_transparent 96 (by decide) true 12 11 (by norm_num)
      (by norm_num) (by norm_num) (by norm_num)).2 (0, 0) (by simp [cornersQ]) 0).2.2⟩

end FibreField
